import Mathlib

/-!
Verification of the core text pipeline of the Kerala electoral-roll OCR
extractor (`extract_voters.py`): the Malayalam-to-Latin transliteration
engine and the OCR-block-to-record parser.  Python strings are modelled as
Lean `String`/`List Char`; Python regular-expression operations used by the
code are modelled by explicit scanning functions with the same matching
semantics on the relevant character classes; `int()` conversion, the only
operation in the core that can raise, is modelled in the `Except` monad.
-/

set_option maxRecDepth 100000

/-! ## Python string primitives -/

/-- Whitespace set used by Python `str.strip`, `str.split()` and `\s`. -/
def isPySpace (c : Char) : Bool :=
  decide (c = ' ' ∨ c = '\t' ∨ c = '\n' ∨ c = '\x0b' ∨ c = '\x0c' ∨ c = '\r' ∨
    (0x1c ≤ c.toNat ∧ c.toNat ≤ 0x1f) ∨ c.toNat = 0x85 ∨ c.toNat = 0xa0 ∨
    c.toNat = 0x1680 ∨ (0x2000 ≤ c.toNat ∧ c.toNat ≤ 0x200a) ∨
    c.toNat = 0x2028 ∨ c.toNat = 0x2029 ∨ c.toNat = 0x202f ∨ c.toNat = 0x205f ∨
    c.toNat = 0x3000)

def stripEndL (l : List Char) : List Char :=
  (l.reverse.dropWhile isPySpace).reverse

/-- Python `str.strip()`. -/
def pyStrip (s : String) : String :=
  ⟨stripEndL (s.data.dropWhile isPySpace)⟩

/-- Python split on the newline character (keeps empty pieces). -/
def splitNlL (acc : List Char) : List Char → List String
  | [] => [⟨acc.reverse⟩]
  | c :: r => if c = '\n' then ⟨acc.reverse⟩ :: splitNlL [] r else splitNlL (c :: acc) r

def splitNl (s : String) : List String := splitNlL [] s.data

/-- Python `s.split()`: split on whitespace runs, no empty pieces.
`curr` is the (reversed) word currently being collected. -/
def splitWsL (curr : List Char) : List Char → List String
  | [] => if curr.isEmpty then [] else [(⟨curr.reverse⟩ : String)]
  | c :: r =>
      if isPySpace c then
        (if curr.isEmpty then [] else [(⟨curr.reverse⟩ : String)]) ++ splitWsL [] r
      else splitWsL (c :: curr) r

def pySplitWs (s : String) : List String := splitWsL [] s.data

/-- Python join of the word list with single spaces. -/
def joinWords : List String → String
  | [] => ""
  | [w] => w
  | w :: ws => w ++ " " ++ joinWords ws

/-- Python join of the line list with newlines. -/
def joinNlStr : List String → String
  | [] => ""
  | [w] => w
  | w :: ws => w ++ "\n" ++ joinNlStr ws

/-- ASCII uppercasing of a character (what Python `.upper()`/`.title()` do on
the ASCII letters the pipeline produces; other characters are unchanged). -/
def upChar (c : Char) : Char :=
  match c with
  | 'a' => 'A' | 'b' => 'B' | 'c' => 'C' | 'd' => 'D' | 'e' => 'E' | 'f' => 'F'
  | 'g' => 'G' | 'h' => 'H' | 'i' => 'I' | 'j' => 'J' | 'k' => 'K' | 'l' => 'L'
  | 'm' => 'M' | 'n' => 'N' | 'o' => 'O' | 'p' => 'P' | 'q' => 'Q' | 'r' => 'R'
  | 's' => 'S' | 't' => 'T' | 'u' => 'U' | 'v' => 'V' | 'w' => 'W' | 'x' => 'X'
  | 'y' => 'Y' | 'z' => 'Z' | _ => c

def downChar (c : Char) : Char :=
  match c with
  | 'A' => 'a' | 'B' => 'b' | 'C' => 'c' | 'D' => 'd' | 'E' => 'e' | 'F' => 'f'
  | 'G' => 'g' | 'H' => 'h' | 'I' => 'i' | 'J' => 'j' | 'K' => 'k' | 'L' => 'l'
  | 'M' => 'm' | 'N' => 'n' | 'O' => 'o' | 'P' => 'p' | 'Q' => 'q' | 'R' => 'r'
  | 'S' => 's' | 'T' => 't' | 'U' => 'u' | 'V' => 'v' | 'W' => 'w' | 'X' => 'x'
  | 'Y' => 'y' | 'Z' => 'z' | _ => c

/-- Python `str.upper()`. -/
def pyUpper (s : String) : String := ⟨s.data.map upChar⟩

/-- Python `str.lower()`. -/
def pyLower (s : String) : String := ⟨s.data.map downChar⟩

/-- Python `str.title()`: first character of each run of cased (here: ASCII
alphabetic) characters uppercased, the rest of the run lowercased. -/
def pyTitleGo (prevCased : Bool) : List Char → List Char
  | [] => []
  | c :: r =>
      if c.isAlpha then
        (if prevCased then downChar c else upChar c) :: pyTitleGo true r
      else c :: pyTitleGo false r

def pyTitle (s : String) : String := ⟨pyTitleGo false s.data⟩

/-- Python rstrip over the set virama / ZWNJ / ZWJ. -/
def pyRstrip3 (s : String) : String :=
  ⟨(s.data.reverse.dropWhile
      (fun c => c = '്' || c = '‌' || c = '‍')).reverse⟩

/-- Python `pat in s` (substring containment). -/
def containsSub : List Char → List Char → Bool
  | [], pat => pat.isEmpty
  | c :: r, pat => pat.isPrefixOf (c :: r) || containsSub r pat

/-- Length of the run of characters satisfying `p` at the head of `l`. -/
def runLen (p : Char → Bool) (l : List Char) : Nat := (l.takeWhile p).length

/-- Python `int()` restricted to decimal-digit strings; `none` models the
`ValueError` raised on anything else. -/
def pyIntOpt (s : String) : Option Nat :=
  if s.data.isEmpty then none
  else if s.data.all Char.isDigit then
    some (s.data.foldl (fun n c => n * 10 + (c.toNat - 48)) 0)
  else none

/-- `int()` in the `Except` monad: the only exception source of the core. -/
def pyIntE (s : String) : Except String Nat :=
  match pyIntOpt s with
  | some n => .ok n
  | none => .error "invalid literal for int()"

/-! ## The transliteration tables (from `extract_voters.py`) -/

def CONJUNCTS : List (String × String) := [
  ("ക്ക", "kka"), ("ക്ഷ", "ksha"), ("ക്ത", "ktha"),
  ("ങ്ക", "nka"), ("ങ്ങ", "nga"),
  ("ച്ച", "ccha"), ("ഞ്ച", "ncha"), ("ഞ്ഞ", "nja"),
  ("ട്ട", "tta"), ("ണ്ട", "nda"), ("ണ്ണ", "nna"),
  ("ത്ത", "ttha"), ("ന്ത", "ntha"), ("ന്ന", "nna"), ("ന്ദ", "nda"),
  ("ന്ധ", "ndha"), ("ന്റ", "nra"),
  ("പ്പ", "ppa"), ("മ്പ", "mba"), ("മ്മ", "mma"),
  ("യ്യ", "yya"), ("ല്ല", "lla"), ("ള്ള", "lla"), ("വ്വ", "vva"),
  ("ശ്ശ", "shsha"), ("സ്സ", "ssa"), ("റ്റ", "tta"),
  ("ഷ്ട", "shta"), ("ഷ്ണ", "shna"),
  ("സ്ക", "ska"), ("സ്ത", "stha"), ("സ്ഥ", "stha"), ("സ്മ", "sma"),
  ("സ്ന", "sna"), ("സ്പ", "spa"), ("സ്ഫ", "spha"), ("സ്ര", "sra"),
  ("ദ്ദ", "dda"), ("ദ്ധ", "ddha"), ("ദ്ര", "dra"),
  ("ബ്ബ", "bba"), ("ബ്ദ", "bda"), ("ബ്ധ", "bdha"), ("ബ്ര", "bra"),
  ("ജ്ജ", "jja"), ("ജ്ഞ", "gna"),
  ("ഗ്ഗ", "gga"), ("ഗ്ന", "gna"), ("ഗ്മ", "gma"), ("ഗ്ര", "gra"),
  ("ക്ര", "kra"), ("ക്ല", "kla"),
  ("പ്ര", "pra"), ("പ്ല", "pla"),
  ("ത്ര", "thra"), ("ത്മ", "thma"),
  ("ഫ്ര", "phra"),
  ("ശ്ര", "shra"),
  ("ന്ദ്ര", "ndra")]

def CONSONANTS : List (Char × String) := [
  ('ക', "k"), ('ഖ', "kh"), ('ഗ', "g"), ('ഘ', "gh"), ('ങ', "ng"),
  ('ച', "ch"), ('ഛ', "chh"), ('ജ', "j"), ('ഝ', "jh"), ('ഞ', "nj"),
  ('ട', "t"), ('ഠ', "th"), ('ഡ', "d"), ('ഢ', "dh"), ('ണ', "n"),
  ('ത', "th"), ('ഥ', "thh"), ('ദ', "d"), ('ധ', "dh"), ('ന', "n"),
  ('പ', "p"), ('ഫ', "ph"), ('ബ', "b"), ('ഭ', "bh"), ('മ', "m"),
  ('യ', "y"), ('ര', "r"), ('ല', "l"), ('വ', "v"), ('ശ', "sh"),
  ('ഷ', "sh"), ('സ', "s"), ('ഹ', "h"), ('ള', "l"), ('ഴ', "zh"), ('റ', "r")]

def VOWELS : List (Char × String) := [
  ('അ', "a"), ('ആ', "aa"), ('ഇ', "i"), ('ഈ', "ee"), ('ഉ', "u"), ('ഊ', "oo"),
  ('ഋ', "ri"), ('എ', "e"), ('ഏ', "e"), ('ഐ', "ai"), ('ഒ', "o"), ('ഓ', "o"),
  ('ഔ', "au")]

def MATRAS : List (Char × String) := [
  ('ാ', "a"), ('ി', "i"), ('ീ', "ee"), ('ു', "u"), ('ൂ', "oo"),
  ('ൃ', "ri"), ('െ', "e"), ('േ', "e"), ('ൈ', "ai"),
  ('ൊ', "o"), ('ോ', "o"), ('ൌ', "au"), ('ൗ', "au")]

def SPECIALS : List (Char × String) := [
  ('ം', "m"), ('ഃ', "h"),
  ('്', ""),
  ('ൻ', "n"), ('ൽ', "l"), ('ൾ', "l"), ('ർ', "r"), ('ൺ', "n"), ('ൿ', "k"),
  ('‍', ""), ('‌', "")]

def KNOWN_NAMES : List (String × String) := [
  ("അബ്ദുള്ള", "Abdulla"), ("അബ്ദുല്‍", "Abdul"), ("മുഹമ്മദ്", "Muhammed"),
  ("മുഹമ്മദ്‌", "Muhammed"), ("മുഹമ്മെദ്", "Muhammed"),
  ("ഫാത്തിമ", "Fathima"), ("ആയിശ", "Ayisha"), ("ഹസൻ", "Hasan"),
  ("ഹുസൈൻ", "Hussain"), ("ഇബ്രാഹിം", "Ibrahim"), ("കരീം", "Kareem"),
  ("അഹമ്മദ്", "Ahmed"), ("അഹമ്മദ്‌", "Ahmed"), ("അഹമ്മെദ്", "Ahmed"),
  ("റഹ്മാൻ", "Rahman"), ("റഹിമാൻ", "Rahman"), ("റഹിമാന്‍", "Rahman"),
  ("നാസർ", "Naser"), ("നാസര്‍", "Naser"),
  ("ബീരാൻ", "Beeran"), ("ബീരാന്‍", "Beeran"),
  ("ഉമ്മർ", "Ummar"), ("ഉമ്മര്‍", "Ummar"),
  ("മൊയ്തീൻ", "Moitheen"), ("മൊയ്തീന്‍", "Moitheen"),
  ("അലി", "Ali"), ("ഹസീന", "Haseena"), ("ഹസീനാ", "Haseena"),
  ("ആമിന", "Amina"), ("സൈനബ", "Sainaba"), ("ഖദീജ", "Khadija"),
  ("നൂറുന്നീസ", "Noornisa"),
  ("രാജേഷ്", "Rajesh"), ("രാജേഷ്‌", "Rajesh"),
  ("ലക്ഷ്മി", "Lakshmi"), ("ജയലക്ഷ്മി", "Jayalakshmi"),
  ("ഗോപിനാഥൻ", "Gopinathan"), ("ഗോപിനാഥന്‍", "Gopinathan"),
  ("ഗോപാലകൃഷ്ണൻ", "Gopalakrishnan"), ("കൃഷ്ണൻ", "Krishnan"),
  ("ബാലകൃഷ്ണൻ", "Balakrishnan"),
  ("നാരായണൻ", "Narayanan"), ("ശങ്കരൻ", "Shankaran"),
  ("വിജയൻ", "Vijayan"), ("ദിനേശൻ", "Dineshan"),
  ("സുരേഷ്", "Suresh"), ("മനോജ്", "Manoj"),
  ("പ്രദീപ്", "Pradeep"), ("അനിത", "Anitha"),
  ("ശാന്ത", "Shantha"), ("കമല", "Kamala"), ("ഗീത", "Geetha"),
  ("ശ്രീദേവി", "Sreedevi"), ("സഫിയ", "Safiya"),
  ("കുമാർ", "Kumar"), ("കുമാര്‍", "Kumar"), ("കുമാരി", "Kumari"),
  ("നായർ", "Nair"), ("നായര്‍", "Nair"),
  ("മേനോൻ", "Menon"), ("മേനോന്‍", "Menon"),
  ("പിള്ള", "Pilla"), ("പണിക്കർ", "Panikkar"),
  ("ജോസ്", "Jose"), ("ജോസ്‌", "Jose"), ("ജോർജ്", "George"),
  ("തോമസ്", "Thomas"), ("മാത്യു", "Mathew"),
  ("ചന്ദ്രൻ", "Chandran"), ("രമേശ്", "Ramesh"),
  ("ബഷീർ", "Basheer"), ("ബഷിര്‍", "Basheer"),
  ("ഷാജി", "Shaji"), ("സജി", "Saji"), ("വിനോദ്", "Vinod"),
  ("അനീസ്", "Anees"), ("സന്തോഷ്", "Santhosh"),
  ("ഗണേഷ്", "Ganesh"), ("ഗണേഷ്‌", "Ganesh"), ("ഗണേശ്", "Ganesh"),
  ("ബാബു", "Babu"), ("മോഹൻ", "Mohan"), ("മോഹന്‍", "Mohan"),
  ("ദേവി", "Devi"), ("ബീവി", "Beevi"),
  ("ഷിഹാബ്", "Shihab"), ("ഷിഹാബ്‌", "Shihab"),
  ("അസ്മ", "Asma"), ("ആഷിറ", "Ashira"), ("ശോഭി", "Shobhi"),
  ("എൽസ", "Elsa"), ("എല്‍സ", "Elsa"), ("എല്‍സാ", "Elsa"),
  ("ആശ", "Asha"), ("നസീർ", "Naseer"), ("നസീര്‍", "Naseer"),
  ("മൻസൂർ", "Mansoor"), ("മന്‍സൂര്‍", "Mansoor"),
  ("ശംസുദ്ദീൻ", "Shamsudeen"), ("ശംസുദ്ധീന്‍", "Shamsudeen"),
  ("അബൂബക്കർ", "Abubakar"), ("അബൂബക്കര്‍", "Abubakar"),
  ("അബ്ദുറഹീം", "Abdurraheem"), ("സത്യൻ", "Sathyan"), ("സത്യന്‍", "Sathyan"),
  ("നബീൽ", "Nabeel"), ("നബില്‍", "Nabeel"),
  ("ഹാജറ", "Hajara"), ("ജോബിൻ", "Jobin"), ("ജോബിന്‍", "Jobin"),
  ("പ്രദീഷ്", "Pradeesh"), ("മഞ്ജുള", "Manjula"),
  ("മുജീബ്", "Mujeeb"), ("മുജീബ്‌", "Mujeeb"),
  ("ഷൂഹൈബ്", "Shuhaib"), ("ഷൂഹൈബ്‌", "Shuhaib"),
  ("ശാരിക്", "Sharik"), ("ശാരിക്‌", "Sharik"),
  ("മുഹന്നദ്", "Muhanned"), ("മൊസ്തീൻ", "Mostheen"), ("മൊസ്തീന്‍", "Mostheen"),
  ("അഷറഫ്", "Ashraf"), ("അഷറഫ്‌", "Ashraf"),
  ("ഗഫൂർ", "Ghafoor"), ("ഗഫൂര്‍", "Ghafoor"),
  ("കുഞ്ഞാലി", "Kunjali"), ("കൂഞ്ഞാലി", "Kunjali"),
  ("നാസിറുദ്ദീൻ", "Nasirudeen"), ("നാസിറുദ്ദീന്‍", "Nasirudeen"),
  ("ഉണ്ണിമോയിൻ", "Unnimoyin"), ("ഉണ്ണിമോയിന്‍", "Unnimoyin"),
  ("സൈദലവി", "Saidalavi")]

/-! ## The transliterator (`transliterate_word`, `transliterate_to_english`) -/

/-- `is_malayalam` from the source: U+0D00 – U+0D7F. -/
def is_malayalam (c : Char) : Bool :=
  decide (0x0D00 ≤ c.toNat ∧ c.toNat ≤ 0x0D7F)

def lookupCh : List (Char × String) → Char → Option String
  | [], _ => none
  | p :: r, c => if p.1 = c then some p.2 else lookupCh r c

def lookupStr : List (String × String) → String → Option String
  | [], _ => none
  | p :: r, s => if p.1 = s then some p.2 else lookupStr r s

def specialsVal (c : Char) : Option String := lookupCh SPECIALS c
def vowelVal (c : Char) : Option String := lookupCh VOWELS c
def matraVal (c : Char) : Option String := lookupCh MATRAS c
def consVal (c : Char) : Option String := lookupCh CONSONANTS c
def conjVal (s : String) : Option String := lookupStr CONJUNCTS s

mutual

/-- The character-cascade scan of `transliterate_word`, returning the list of
appended pieces.  The Python loop advances a cursor `i` with lookahead of up
to three characters; the list argument is the suffix `chars[i:]`, and the
mutually recursive functions are the branch groups of the loop body
(`twConsF`: consonant seen, `twConjF`: conjunct matched, `twAfterF`: matra /
standalone handling).  `fuel` bounds the number of branch steps; at least one
character is consumed per three steps, so `4 * (n + 1)` steps never run out
and the zero-fuel case is unreachable. -/
def twGoF : Nat → List Char → List String
  | 0, _ => []
  | _ + 1, [] => []
  | fuel + 1, c :: rest =>
    if !(is_malayalam c) && (specialsVal c).isNone then
      -- skip non-Malayalam characters (ASCII passes through)
      (if c.toNat < 128 then [(⟨[c]⟩ : String)] else []) ++ twGoF fuel rest
    else if (specialsVal c).isSome then (specialsVal c).getD "" :: twGoF fuel rest
    else if (vowelVal c).isSome then (vowelVal c).getD "" :: twGoF fuel rest
    else if (matraVal c).isSome then (matraVal c).getD "" :: twGoF fuel rest
    else if (consVal c).isSome then twConsF fuel c rest
    else twGoF fuel rest

def twConsF : Nat → Char → List Char → List String
  | 0, _, _ => []
  | fuel + 1, c, c1 :: c2 :: rest2 =>
    -- look ahead for virama + consonant (conjunct); needs `i + 2 < n`
    if c1 = '്' then
      match conjVal ⟨[c, '്', c2]⟩ with
      | some cv => twConjF fuel cv rest2
      | none =>
        -- virama but no recognized conjunct: killed inherent vowel
        (consVal c).getD "" :: twGoF fuel (c2 :: rest2)
    else twAfterF fuel c (c1 :: c2 :: rest2)
  | fuel + 1, c, rest => twAfterF fuel c rest

def twConjF : Nat → String → List Char → List String
  | 0, _, _ => []
  | fuel + 1, cv, m :: rest3 =>
    match matraVal m with
    | some mv => (cv ++ mv) :: twGoF fuel rest3
    | none => cv :: ((if m = '്' then [] else ["a"]) ++ twGoF fuel (m :: rest3))
  | _ + 1, cv, [] => [cv]

def twAfterF : Nat → Char → List Char → List String
  | 0, _, _ => []
  | fuel + 1, c, m :: r1 =>
    match matraVal m with
    | some mv => ((consVal c).getD "" ++ mv) :: twGoF fuel r1
    | none =>
      (consVal c).getD "" :: ((if m = '്' then [] else ["a"]) ++ twGoF fuel (m :: r1))
  | _ + 1, c, [] => [(consVal c).getD ""]

end

def twGo (l : List Char) : List String := twGoF (4 * (l.length + 1)) l

/-- Concatenation of the collected pieces (join with the empty separator). -/
def strConcat : List String → String
  | [] => ""
  | s :: r => s ++ strConcat r

/-- `transliterate_word` from the source. -/
def transliterate_word (word : String) : String :=
  if strConcat (twGo word.data) = "" then word else pyTitle (strConcat (twGo word.data))

/-- The per-word scan over the `KNOWN_NAMES` items (insertion order,
first match wins), with the two-way comparison of the source. -/
def knownLookup : List (String × String) → String → Option String
  | [], _ => none
  | p :: r, w =>
      if w = p.1 || pyRstrip3 w = pyRstrip3 p.1 then some p.2
      else knownLookup r w

/-- Per-word step of `transliterate_to_english` (`None` models `continue`;
`pyStrip w` is the `clean_word`). -/
def wordResult (w : String) : Option String :=
  if pyStrip w = "" then none
  else
    match knownLookup KNOWN_NAMES (pyStrip w) with
    | some v => some v
    | none => some (transliterate_word (pyStrip w))

/-- Removal of the ZWJ / ZWNJ joiner characters done before any other
processing (the four `text.replace` calls, two joiner code points). -/
def joinerFree (s : String) : String :=
  ⟨s.data.filter (fun c => !(c = '‍' || c = '‌'))⟩

/-- The ASCII fast-path test: every character is ASCII or one of space,
slash, hyphen, period. -/
def asciiOnly (s : String) : Bool :=
  s.data.all (fun c => c.toNat < 128 || c = ' ' || c = '/' || c = '-' || c = '.')

/-- `transliterate_to_english` from the source. -/
def transliterate_to_english (text : String) : String :=
  if text = "" || pyStrip text = "" then ""
  else if asciiOnly (joinerFree (pyStrip text)) then joinerFree (pyStrip text)
  else joinWords ((pySplitWs (joinerFree (pyStrip text))).filterMap wordResult)

/-! ## Regular-expression scanners used by the parser

Each Python regex of the parser is modelled by an explicit scanner with the
same matching semantics (leftmost match, greedy bounded repetition,
non-overlapping continuation for `findall` / `finditer` / `split`).
`\d`, `\s`, `[A-Za-z]`, `[A-Z]` are the ASCII digit / whitespace / letter
classes relevant to this data. -/

/-- The `re.findall` of pattern `[A-Za-z]{2,3}\d{6,10}`.  A match at a position
requires the maximal letter run there to have length exactly 2 or 3 (a longer
run leaves a letter where a digit is required) followed by at least 6 digits,
of which at most 10 are consumed. -/
def scanVoterIds : Nat → List Char → List String
  | 0, _ => []
  | _, [] => []
  | fuel+1, c :: rest =>
    let L := runLen Char.isAlpha (c :: rest)
    if L = 2 || L = 3 then
      let D := runLen Char.isDigit ((c :: rest).drop L)
      if 6 ≤ D then
        (⟨(c :: rest).take (L + min D 10)⟩ : String) ::
          scanVoterIds fuel ((c :: rest).drop (L + min D 10))
      else scanVoterIds fuel rest
    else scanVoterIds fuel rest

def findVoterIds (l : List Char) : List String := scanVoterIds l.length l

/-- Body `\d{1,4}\s+[A-Za-z]{2,3}\d` of the serial-number regex; returns the
captured digit group and the number of characters consumed. -/
def serialMatchAt (l : List Char) : Option (String × Nat) :=
  let D := runLen Char.isDigit l
  if 1 ≤ D && D ≤ 4 then
    let l1 := l.drop D
    let W := runLen isPySpace l1
    if 1 ≤ W then
      let l2 := l1.drop W
      let L := runLen Char.isAlpha l2
      if L = 2 || L = 3 then
        match l2.drop L with
        | d :: _ => if d.isDigit then some ((⟨l.take D⟩ : String), D + W + L + 1) else none
        | [] => none
      else none
    else none
  else none

/-- The `re.findall` of pattern `(?:^|\s)(\d{1,4})\s+[A-Za-z]{2,3}\d`: the `^`
alternative applies only at the start, otherwise one whitespace character is
consumed before the body. -/
def scanSerials : Nat → Bool → List Char → List String
  | 0, _, _ => []
  | _, _, [] => []
  | fuel+1, atStart, c :: rest =>
    match (if atStart then serialMatchAt (c :: rest) else none) with
    | some (g, k) => g :: scanSerials fuel false ((c :: rest).drop k)
    | none =>
      if isPySpace c then
        match serialMatchAt rest with
        | some (g, k) => g :: scanSerials fuel false (rest.drop k)
        | none => scanSerials fuel false rest
      else scanSerials fuel false rest

def findSerials (l : List Char) : List String := scanSerials l.length true l

/-- Body of the pattern `\d+\s+[A-Z]{2,3}\d{6,}` at a position. -/
def startBodyAt (l : List Char) : Bool :=
  let D := runLen Char.isDigit l
  if D = 0 then false
  else
    let l1 := l.drop D
    let W := runLen isPySpace l1
    if W = 0 then false
    else
      let l2 := l1.drop W
      let U := runLen Char.isUpper l2
      if U = 2 || U = 3 then decide (6 ≤ runLen Char.isDigit (l2.drop U)) else false

/-- The `re.search` of pattern `\d+\s+[A-Z]{2,3}\d{6,}` as a Boolean. -/
def searchStart : List Char → Bool
  | [] => false
  | c :: r => startBodyAt (c :: r) || searchStart r

/-- Body `\d{1,4}\s+[A-Za-z]{2,3}\d{6,}` of the block-boundary regex. -/
def boundaryBodyAt (l : List Char) : Bool :=
  let D := runLen Char.isDigit l
  if D = 0 || 4 < D then false
  else
    let l1 := l.drop D
    let W := runLen isPySpace l1
    if W = 0 then false
    else
      let l2 := l1.drop W
      let L := runLen Char.isAlpha l2
      if L = 2 || L = 3 then decide (6 ≤ runLen Char.isDigit (l2.drop L)) else false

def searchBoundaryGo : List Char → Bool
  | [] => false
  | c :: r => (isPySpace c && boundaryBodyAt r) || searchBoundaryGo r

/-- The `re.search` of pattern `(?:^|\s)\d{1,4}\s+[A-Za-z]{2,3}\d{6,}`. -/
def searchBoundary (l : List Char) : Bool := boundaryBodyAt l || searchBoundaryGo l

/-- Match of `[A-Z]{2,3}\d{6,}` at a position. -/
def idUpperAt (l : List Char) : Bool :=
  let U := runLen Char.isUpper l
  if U = 2 || U = 3 then decide (6 ≤ runLen Char.isDigit (l.drop U)) else false

/-- The `re.search` of pattern `[A-Z]{2,3}\d{6,}`. -/
def searchIdUpper : List Char → Bool
  | [] => false
  | c :: r => idUpperAt (c :: r) || searchIdUpper r

/-- The class `[്‌]` (virama or ZWNJ) of the name-label regex. -/
def isVirOrZwnj (c : Char) : Bool := c = '്' || c = '‌'

/-- The class `[്‍]` (virama or ZWJ) of the house-number split regex. -/
def isVirOrZwj (c : Char) : Bool := c = '്' || c = '‍'

/-- Match of `പേര്?[്‌]*\s*[:+]` at a position (`്?[്‌]*` is a run over
virama/ZWNJ). -/
def nameLabelAt (l : List Char) : Bool :=
  "പേര".data.isPrefixOf l &&
    (let l1 := ((l.drop 3).dropWhile isVirOrZwnj).dropWhile isPySpace
     match l1 with
     | c :: _ => c = ':' || c = '+'
     | [] => false)

def searchNameLabel : List Char → Bool
  | [] => false
  | c :: r => nameLabelAt (c :: r) || searchNameLabel r

/-- The `re.search` of the alternation `അച്ഛ|ഭര്‍ത്താ|മറ്റ`: is any of the three
relative-marker stems a substring. -/
def searchNegMarker (l : List Char) : Bool :=
  containsSub l "അച്ഛ".data || containsSub l "ഭര്‍ത്താ".data ||
    containsSub l "മറ്റ".data

def relTok1 : List Char := "അച്ഛന്റെ".data
def relTok2 : List Char := "ഭര്‍ത്താവിന്റെ".data
def relTok3 : List Char := "മറ്റുള്ളവ".data

/-- The `re.search` of the alternation `അച്ഛന്റെ|ഭര്‍ത്താവിന്റെ|മറ്റുള്ളവ`. -/
def searchRelMarker (l : List Char) : Bool :=
  containsSub l relTok1 || containsSub l relTok2 || containsSub l relTok3

/-- Match of `(വീട്ടു|വിട്ടു)\s*നമ്പ` at a position. -/
def houseMarkerAt (l : List Char) : Bool :=
  ("വീട്ടു".data.isPrefixOf l || "വിട്ടു".data.isPrefixOf l) &&
    "നമ്പ".data.isPrefixOf ((l.drop 6).dropWhile isPySpace)

def searchHouseMarker : List Char → Bool
  | [] => false
  | c :: r => houseMarkerAt (c :: r) || searchHouseMarker r

def agePat : List Char := "പ്രായം".data

/-! ### Column-split matchers (each returns the number of characters the
match consumes, for `re.split`) -/

/-- `re.split` pattern `പേര്?[്‌]*\s*[:+]\s*`. -/
def nameSplitAt (l : List Char) : Option Nat :=
  if "പേര".data.isPrefixOf l then
    let k1 := runLen isVirOrZwnj (l.drop 3)
    let k2 := runLen isPySpace (l.drop (3 + k1))
    match l.drop (3 + k1 + k2) with
    | c :: r =>
        if c = ':' || c = '+' then some (3 + k1 + k2 + 1 + runLen isPySpace r) else none
    | [] => none
  else none

/-- `re.split` pattern
`(?:അച്ഛന്റെ|ഭര്‍ത്താവിന്റെ|മറ്റുള്ളവ)\s*(?:പേര്?[്‌]*\s*)?[:+]?\s*`. -/
def relSplitAt (l : List Char) : Option Nat :=
  let t := if relTok1.isPrefixOf l then some relTok1.length
           else if relTok2.isPrefixOf l then some relTok2.length
           else if relTok3.isPrefixOf l then some relTok3.length
           else none
  match t with
  | none => none
  | some t0 =>
    let p1 := t0 + runLen isPySpace (l.drop t0)
    let p2 :=
      if "പേര".data.isPrefixOf (l.drop p1) then
        let q1 := runLen isVirOrZwnj (l.drop (p1 + 3))
        p1 + 3 + q1 + runLen isPySpace (l.drop (p1 + 3 + q1))
      else p1
    let p3 :=
      match l.drop p2 with
      | c :: _ => if c = ':' || c = '+' then p2 + 1 else p2
      | [] => p2
    some (p3 + runLen isPySpace (l.drop p3))

/-- `re.split` pattern `(?:വീട്ടു|വിട്ടു)\s*നമ്പര്?[്‍]*\s*[:+]\s*`. -/
def houseSplitAt (l : List Char) : Option Nat :=
  if "വീട്ടു".data.isPrefixOf l || "വിട്ടു".data.isPrefixOf l then
    let p1 := 6 + runLen isPySpace (l.drop 6)
    if "നമ്പര".data.isPrefixOf (l.drop p1) then
      let p3 := p1 + 5 + runLen isVirOrZwj (l.drop (p1 + 5))
      let p4 := p3 + runLen isPySpace (l.drop p3)
      match l.drop p4 with
      | c :: r =>
          if c = ':' || c = '+' then some (p4 + 1 + runLen isPySpace r) else none
      | [] => none
    else none
  else none

/-- `re.split` pattern `പ്രായം\s*[:+]\s*`. -/
def ageSplitAt (l : List Char) : Option Nat :=
  if agePat.isPrefixOf l then
    let p1 := agePat.length + runLen isPySpace (l.drop agePat.length)
    match l.drop p1 with
    | c :: r => if c = ':' || c = '+' then some (p1 + 1 + runLen isPySpace r) else none
    | [] => none
  else none

/-- Generic `re.split`: scan for non-overlapping leftmost matches of
`matchAt`; the pieces between matches are returned (empty pieces kept,
matching Python).  Fuel bounds the number of scan steps (every step consumes
at least one character, so `l.length` suffices). -/
def reSplitGo (matchAt : List Char → Option Nat) : Nat → List Char → List Char → List String
  | _, acc, [] => [(⟨acc.reverse⟩ : String)]
  | 0, acc, l => [(⟨acc.reverse ++ l⟩ : String)]
  | fuel+1, acc, c :: r =>
    match matchAt (c :: r) with
    | some k => (⟨acc.reverse⟩ : String) :: reSplitGo matchAt fuel [] ((c :: r).drop k)
    | none => reSplitGo matchAt fuel (c :: acc) r

def reSplit (matchAt : List Char → Option Nat) (l : List Char) : List String :=
  reSplitGo matchAt l.length [] l

/-- `re.finditer` over the three relative-marker tokens: ordered list of
which token matched (0 = father, 1 = husband, 2 = other), non-overlapping. -/
def findRelTokens : Nat → List Char → List Nat
  | 0, _ => []
  | _, [] => []
  | fuel+1, c :: r =>
    if relTok1.isPrefixOf (c :: r) then 0 :: findRelTokens fuel ((c :: r).drop relTok1.length)
    else if relTok2.isPrefixOf (c :: r) then 1 :: findRelTokens fuel ((c :: r).drop relTok2.length)
    else if relTok3.isPrefixOf (c :: r) then 2 :: findRelTokens fuel ((c :: r).drop relTok3.length)
    else findRelTokens fuel r

def relTypeStr : Nat → String
  | 0 => "Father's Name / അച്ഛന്റെ പേര്"
  | 1 => "Husband's Name / ഭർത്താവിന്റെ പേര്"
  | _ => "Other / മറ്റുള്ളവ"

/-! ### Trailing-noise stripping: `re.sub` of anchored patterns of the form
`\s*(tok|…)\s*$` with the empty replacement -/

/-- Does `\s*(tok)\s*$` match the whole of `l` for one of `tokens`? -/
def noiseSuffix (tokens : List String) (l : List Char) : Bool :=
  let t := l.dropWhile isPySpace
  tokens.any (fun tok => tok.data.isPrefixOf t && (t.drop tok.data.length).all isPySpace)

def subTrailGo (tokens : List String) (acc : List Char) : List Char → List Char
  | [] => acc.reverse
  | c :: r => if noiseSuffix tokens (c :: r) then acc.reverse else subTrailGo tokens (c :: acc) r

/-- Remove the leftmost (hence unique) match of the anchored trailing-noise
pattern; the string is unchanged when there is no match. -/
def subTrailing (tokens : List String) (s : String) : String :=
  ⟨subTrailGo tokens [] s.data⟩

def nameNoise : List String := ["ഫോട്ടോ", "ടോ", "oes", "ലു", "ല്ല"]
def houseNoise : List String := ["ടോ", "oes", "ലു", "ല്ല", "ലല", "llo"]
def pipeTok : List String := ["|"]

/-- The two-stage cleanup applied to `name_ml` at record assembly. -/
def cleanNameMl (s : String) : String :=
  pyStrip (subTrailing pipeTok (pyStrip (subTrailing nameNoise s)))

/-- The cleanup applied to `relative_name_ml` at record assembly. -/
def cleanRelMl (s : String) : String := pyStrip (subTrailing nameNoise s)

/-! ### Photo-placeholder lines -/

def photoTok : List Char := "ഫോട്ടോ".data

/-- The `re.match` of pattern `^(ഫോട്ടോ\s*)+$`. -/
def photoMatch : Nat → List Char → Bool
  | 0, _ => false
  | fuel+1, l =>
    photoTok.isPrefixOf l &&
      (let r := (l.drop photoTok.length).dropWhile isPySpace
       r.isEmpty || photoMatch fuel r)

/-- the photo-placeholder test: the stripped line is the photo token, empty,
or a repetition of the photo token. -/
def isPhotoLine (s : String) : Bool :=
  let t := pyStrip s
  t = "ഫോട്ടോ" || t = "" || photoMatch t.data.length t.data

/-! ### Age and gender extraction -/

/-- The `re.search` of pattern `(\d{2,3})`: leftmost position with at least two
digits; up to three are taken. -/
def extractAgeDigits : List Char → Option String
  | [] => none
  | c :: r =>
    let D := runLen Char.isDigit (c :: r)
    if 2 ≤ D then some (⟨(c :: r).take (min D 3)⟩ : String) else extractAgeDigits r

/-- The feminine-marker test of the gender branch. -/
def femaleMark (part : String) : Bool :=
  containsSub part.data "സ്ത്രീ".data || containsSub part.data "സ്രീ".data ||
    containsSub (pyLower part).data "ay)".data

def genderOf (part : String) : String :=
  if femaleMark part then "Female / സ്ത്രീ" else "Male / പുരുഷൻ"

/-- The age computation of the per-part loop: extract a 2–3 digit number,
convert with `int()` (exception modelled in `Except`), and null it when it is
truthy and out of the 18–120 range. -/
def ageFromPart (part : String) : Except String (Option Nat) :=
  match extractAgeDigits part.data with
  | none => .ok none
  | some ds =>
    match pyIntE ds with
    | .error e => .error e
    | .ok v => .ok (if v ≠ 0 ∧ (v < 18 ∨ 120 < v) then none else some v)

/-- The `for part in age_gender_parts` loop building `ages` and `genders`. -/
def agesGendersOf : List String → Except String (List (Option Nat) × List String)
  | [] => .ok ([], [])
  | p :: rest =>
    match ageFromPart p with
    | .error e => .error e
    | .ok a =>
      match agesGendersOf rest with
      | .error e => .error e
      | .ok (as, gs) => .ok (a :: as, genderOf p :: gs)

/-! ## `parse_voter_block` -/

structure Voter where
  serial_no : Option Nat
  voter_id : Option String
  name_ml : Option String
  name_en : Option String
  relative_name_ml : Option String
  relative_name_en : Option String
  relation_type : String
  house_number : Option String
  age : Option Nat
  gender : Option String
deriving DecidableEq

/-- The line-classification loop: route each non-blank line of the block into
one of the four accumulator lines (name, relative, house, age/gender). -/
def classifyGo : List String → String → String → String → String →
    String × String × String × String
  | [], nm, rl, hs, ag => (nm, rl, hs, ag)
  | l :: rest, nm, rl, hs, ag =>
    let ls := pyStrip l
    if ls = "" then classifyGo rest nm rl hs ag
    else if searchIdUpper ls.data then classifyGo rest nm rl hs ag
    else if searchNameLabel ls.data && !(searchNegMarker ls.data) then
      classifyGo rest (nm ++ " " ++ ls) rl hs ag
    else if searchRelMarker ls.data then classifyGo rest nm (rl ++ " " ++ ls) hs ag
    else if searchHouseMarker ls.data then classifyGo rest nm rl (hs ++ " " ++ ls) ag
    else if containsSub ls.data agePat then classifyGo rest nm rl hs (ag ++ " " ++ ls)
    else classifyGo rest nm rl hs ag

def classifiedOf (bt : String) : String × String × String × String :=
  classifyGo (splitNl bt) "" "" "" ""

/-- Split an accumulator line on its label marker and keep the non-blank
stripped pieces. -/
def splitCol (matchAt : List Char → Option Nat) (line : String) : List String :=
  ((reSplit matchAt (pyStrip line).data).map pyStrip).filter (fun x => x ≠ "")

def namesOf (bt : String) : List String := splitCol nameSplitAt (classifiedOf bt).1
def relsOf (bt : String) : List String := splitCol relSplitAt (classifiedOf bt).2.1
def reltsOf (bt : String) : List String :=
  (findRelTokens (classifiedOf bt).2.1.data.length (classifiedOf bt).2.1.data).map relTypeStr
def housesOf (bt : String) : List String :=
  (splitCol houseSplitAt (classifiedOf bt).2.2.1).map (fun h => pyStrip (subTrailing houseNoise h))
def agePartsOf (bt : String) : List String := splitCol ageSplitAt (classifiedOf bt).2.2.2

/-- The aligned field columns entering record assembly. -/
structure Cols where
  ids : List String
  sns : List String
  names : List String
  rels : List String
  relts : List String
  houses : List String
  ages : List (Option Nat)
  genders : List String

def defaultRel : String := "Father's Name / അച്ഛന്റെ പേര്"

/-- One iteration of the record-assembly loop: the `idx`-th element of every
column (`None` when the column is shorter), with the assembly-time name
cleanups; `int(serial_nums[idx])` is the only fallible step. -/
def buildVoter (c : Cols) (idx : Nat) : Except String Voter :=
  match (match c.sns.get? idx with
         | some s => Except.map some (pyIntE s)
         | none => Except.ok none) with
  | .error e => .error e
  | .ok serial =>
    .ok { serial_no := serial,
          voter_id := (c.ids.get? idx).map pyUpper,
          name_ml := (c.names.get? idx).map (fun s => if s = "" then s else cleanNameMl s),
          name_en := none,
          relative_name_ml := (c.rels.get? idx).map (fun s => if s = "" then s else cleanRelMl s),
          relative_name_en := none,
          relation_type := (c.relts.get? idx).getD defaultRel,
          house_number := c.houses.get? idx,
          age := (c.ages.get? idx).getD none,
          gender := c.genders.get? idx }

/-- Python truthiness of the `voter_id` field (`if voter["voter_id"]:`). -/
def optStrTruthy : Option String → Bool
  | some s => s != ""
  | none => false

/-- The assembly loop over `range(len(voter_ids))`: append the record only
when its `voter_id` is truthy. -/
def assembleGo (c : Cols) : List Nat → Except String (List Voter)
  | [] => .ok []
  | idx :: rest =>
    match buildVoter c idx with
    | .error e => .error e
    | .ok v =>
      match assembleGo c rest with
      | .error e => .error e
      | .ok vs => if optStrTruthy v.voter_id then .ok (v :: vs) else .ok vs

def assembleVoters (c : Cols) : Except String (List Voter) :=
  assembleGo c (List.range c.ids.length)

/-- `parse_voter_block` from the source. -/
def parse_voter_block (bt : String) (voterIds serialNums : List String) :
    Except String (List Voter) :=
  match agesGendersOf (agePartsOf bt) with
  | .error e => .error e
  | .ok (ages, genders) =>
      assembleVoters { ids := voterIds, sns := serialNums, names := namesOf bt,
                       rels := relsOf bt, relts := reltsOf bt, houses := housesOf bt,
                       ages := ages, genders := genders }

/-! ## `parse_ocr_text` -/

/-- A line that terminates the current block (serial-plus-identifier pattern of the next row,
or one of the three footer / supplement markers). -/
def blockTerminator (nl : String) : Bool :=
  searchBoundary nl.data ||
    (containsSub nl.data "വയസ്സ്".data || containsSub nl.data "ആകെ പേജ".data ||
      containsSub nl.data "സപ്പിമെന്റ".data)

def collectBlock (lines : List String) (j : Nat) : List String × Nat :=
  if h : j < lines.length then
    if blockTerminator (lines.get ⟨j, h⟩) then ([], j)
    else if isPhotoLine (lines.get ⟨j, h⟩) then collectBlock lines (j + 1)
    else ((lines.get ⟨j, h⟩) :: (collectBlock lines (j + 1)).1, (collectBlock lines (j + 1)).2)
  else ([], j)
termination_by lines.length - j

/-- The collection loop never moves its index back. -/
theorem collectBlock_le (lines : List String) (j : Nat) : j ≤ (collectBlock lines j).2 := by
  unfold collectBlock
  split
  · split
    · simp
    · split
      · have := collectBlock_le lines (j + 1)
        omega
      · have := collectBlock_le lines (j + 1)
        simpa using by omega
  · simp
termination_by lines.length - j

/-- The inner `while j < len(lines)` block-collection loop returned the
accumulated block lines and the stop index; this is the outer
`while i < len(lines)` loop of `parse_ocr_text`. -/
def parseLoop (lines : List String) (i : Nat) : Except String (List Voter) :=
  if h : i < lines.length then
    let line := lines.get ⟨i, h⟩
    let ids := findVoterIds line.data
    if ids = [] then parseLoop lines (i + 1)
    else
      let sns := findSerials line.data
      let r := collectBlock lines (i + 1)
      match parse_voter_block (joinNlStr (line :: r.1)) ids sns with
      | .error e => .error e
      | .ok parsed =>
        match parseLoop lines r.2 with
        | .error e => .error e
        | .ok rest => .ok (parsed ++ rest)
  else .ok []
termination_by lines.length - i
decreasing_by
  · omega
  · have := collectBlock_le lines (i + 1)
    omega

/-- The start-of-data scan (`start_idx`, defaulting to 0). -/
def findStartGo : List String → Nat → Nat
  | [], _ => 0
  | l :: rest, i => if searchStart l.data then i else findStartGo rest (i + 1)

/-- The line list: the page text stripped, split on newlines, each line
stripped, blank lines dropped. -/
def pageLines (text : String) : List String :=
  ((splitNl (pyStrip text)).map pyStrip).filter (fun l => l ≠ "")

/-- `parse_ocr_text` from the source. -/
def parse_ocr_text (text : String) : Except String (List Voter) :=
  if pageLines text = [] then .ok []
  else parseLoop (pageLines text) (findStartGo (pageLines text) 0)

/-! ## Predicates used by the claim statements -/

/-- The head character (if any) is not whitespace. -/
def noLeadB : List Char → Bool
  | [] => true
  | c :: _ => !(isPySpace c)

/-- A string with neither leading nor trailing whitespace. -/
def noEdgeWs (s : String) : Bool := noLeadB s.data && noLeadB s.data.reverse

/-- All characters of the string are non-whitespace. -/
def noWsStr (s : String) : Bool := s.data.all (fun c => !(isPySpace c))

/-- The character alphabet of claim C8: ASCII letters, space, hyphen, slash,
period. -/
def asciiNameChar (c : Char) : Bool :=
  decide ((65 ≤ c.toNat ∧ c.toNat ≤ 90) ∨ (97 ≤ c.toNat ∧ c.toNat ≤ 122) ∨
    c = ' ' ∨ c = '-' ∨ c = '/' ∨ c = '.')

/-- A non-empty all-digits string — the form of every serial-number group and
every age group the scanners extract. -/
def digitStr (s : String) : Prop := s ≠ "" ∧ ∀ c ∈ s.data, c.isDigit = true

/-- The record the alignment claim predicts at column index `k`: the `k`-th
element of every field column (with the assembly-time cleanups), null when
that column is shorter than `k + 1`. -/
def voterAt (c : Cols) (k : Nat) : Voter :=
  { serial_no := (c.sns.get? k).bind pyIntOpt,
    voter_id := (c.ids.get? k).map pyUpper,
    name_ml := (c.names.get? k).map (fun s => if s = "" then s else cleanNameMl s),
    name_en := none,
    relative_name_ml := (c.rels.get? k).map (fun s => if s = "" then s else cleanRelMl s),
    relative_name_en := none,
    relation_type := (c.relts.get? k).getD defaultRel,
    house_number := c.houses.get? k,
    age := (c.ages.get? k).getD none,
    gender := c.genders.get? k }

/-! ## General lemmas about the string primitives -/

theorem strExt {s t : String} (h : s.data = t.data) : s = t := by
  cases s; cases t; simp only [] at h; rw [h]

theorem noLeadB_dropWhile (l : List Char) : noLeadB (l.dropWhile isPySpace) = true := by
  have hh := List.head?_dropWhile_not isPySpace l
  cases h : l.dropWhile isPySpace with
  | nil => rfl
  | cons c r =>
    rw [h] at hh
    simp only [List.head?_cons] at hh
    simp [noLeadB, hh]

theorem dropWhile_of_noLead {l : List Char} (h : noLeadB l = true) :
    l.dropWhile isPySpace = l := by
  cases l with
  | nil => rfl
  | cons c r =>
    simp only [noLeadB, Bool.not_eq_true'] at h
    simp [List.dropWhile_cons, h]

theorem stripEndL_append (l : List Char) :
    ∃ t, l = stripEndL l ++ t ∧ ∀ c ∈ t, isPySpace c = true := by
  refine ⟨(l.reverse.takeWhile isPySpace).reverse, ?_, ?_⟩
  · show l = (l.reverse.dropWhile isPySpace).reverse ++ (l.reverse.takeWhile isPySpace).reverse
    rw [← List.reverse_append, List.takeWhile_append_dropWhile, List.reverse_reverse]
  · intro c hc
    rw [List.mem_reverse] at hc
    exact List.mem_takeWhile_imp hc

theorem noLeadB_stripEndL {l : List Char} (h : noLeadB l = true) :
    noLeadB (stripEndL l) = true := by
  obtain ⟨t, hl, -⟩ := stripEndL_append l
  cases hse : stripEndL l with
  | nil => rfl
  | cons c r =>
    rw [hse] at hl
    cases l with
    | nil => simp at hl
    | cons c0 r0 =>
      simp only [List.cons_append] at hl
      obtain ⟨hc, -⟩ := List.cons.inj hl
      simpa [noLeadB, ← hc] using h

theorem noTrail_stripEndL (l : List Char) : noLeadB (stripEndL l).reverse = true := by
  unfold stripEndL
  rw [List.reverse_reverse]
  exact noLeadB_dropWhile _

theorem stripEndL_of_noTrail {l : List Char} (h : noLeadB l.reverse = true) :
    stripEndL l = l := by
  unfold stripEndL
  rw [dropWhile_of_noLead h, List.reverse_reverse]

theorem pyStrip_data (s : String) :
    (pyStrip s).data = stripEndL (s.data.dropWhile isPySpace) := rfl

theorem noEdgeWs_pyStrip (s : String) : noEdgeWs (pyStrip s) = true := by
  unfold noEdgeWs
  rw [pyStrip_data]
  rw [noLeadB_stripEndL (noLeadB_dropWhile _), noTrail_stripEndL]
  rfl

theorem pyStrip_idem (s : String) : pyStrip (pyStrip s) = pyStrip s := by
  apply strExt
  rw [pyStrip_data, pyStrip_data]
  rw [dropWhile_of_noLead (noLeadB_stripEndL (noLeadB_dropWhile _))]
  exact stripEndL_of_noTrail (noTrail_stripEndL _)

theorem mem_pyStrip {s : String} {c : Char} (h : c ∈ (pyStrip s).data) : c ∈ s.data := by
  rw [pyStrip_data] at h
  obtain ⟨t, hl, -⟩ := stripEndL_append (s.data.dropWhile isPySpace)
  have hmem : c ∈ s.data.dropWhile isPySpace := by
    rw [hl]; exact List.mem_append_left _ h
  exact (List.dropWhile_sublist _).subset hmem

theorem pyStrip_of_noWs {s : String} (h : ∀ c ∈ s.data, isPySpace c = false) :
    pyStrip s = s := by
  have hlead : noLeadB s.data = true := by
    cases hd : s.data with
    | nil => rfl
    | cons c r => simp [noLeadB, h c (by rw [hd]; exact List.mem_cons_self c r)]
  have htrail : noLeadB s.data.reverse = true := by
    cases hd : s.data.reverse with
    | nil => rfl
    | cons c r =>
      have : c ∈ s.data := by
        rw [← List.mem_reverse, hd]; exact List.mem_cons_self c r
      simp [noLeadB, h c this]
  apply strExt
  rw [pyStrip_data, dropWhile_of_noLead hlead, stripEndL_of_noTrail htrail]

theorem asciiNameChar_ascii {c : Char} (h : asciiNameChar c = true) :
    (c.toNat < 128 || c = ' ' || c = '/' || c = '-' || c = '.') = true := by
  unfold asciiNameChar at h
  rw [decide_eq_true_eq] at h
  rcases h with ⟨h1, h2⟩ | ⟨h1, h2⟩ | h | h | h | h <;>
    first
      | (subst h; decide)
      | (simp only [Bool.or_eq_true, decide_eq_true_eq]; omega)

theorem asciiNameChar_not_joiner {c : Char} (h : asciiNameChar c = true) :
    (!(c = '‍' || c = '‌')) = true := by
  unfold asciiNameChar at h
  rw [decide_eq_true_eq] at h
  have hz1 : ('‍' : Char).toNat = 8205 := rfl
  have hz2 : ('‌' : Char).toNat = 8204 := rfl
  rcases h with ⟨h1, h2⟩ | ⟨h1, h2⟩ | h | h | h | h <;>
    first
      | (subst h; decide)
      | (simp only [Bool.not_eq_eq_eq_not, Bool.not_true, Bool.or_eq_false_iff,
          decide_eq_false_iff_not]
         constructor <;> intro he <;> rw [he] at h1 h2 <;> simp [hz1, hz2] at h1 h2 <;> omega)

theorem asciiNameChar_not_ws {c : Char} (h : asciiNameChar c = true) (hs : c ≠ ' ') :
    isPySpace c = false := by
  unfold asciiNameChar at h
  rw [decide_eq_true_eq] at h
  unfold isPySpace
  rw [decide_eq_false_iff_not]
  intro hw
  rcases h with ⟨h1, h2⟩ | ⟨h1, h2⟩ | h | h | h | h <;>
    [skip; skip; exact hs h; subst h; subst h; subst h] <;>
    rcases hw with h' | h' | h' | h' | h' | h' | h' | h' | h' | h' | h' | h' | h' | h' | h' | h' <;>
      first
        | (revert h'; decide)
        | (rw [h'] at h1 h2; revert h1 h2; decide)
        | (have hn := congrArg Char.toNat h'; simp at hn; omega)
        | omega

/-! ## Claim theorems -/

/-- Claim C1, counterexample: for the conjunct `ക്ക` (`kka`) followed by the
matra `ി` (`i`) the transliterator emits `Kkai` — the inherent `a` of the
conjunct mapping is kept and the matra sound appended after it — not `Kki`
as the claim (replacement of the inherent vowel) would require. -/
theorem C1_counterexample :
    transliterate_word "ക്കി" = "Kkai" ∧ transliterate_word "ക്കി" ≠ "Kki" := by
  constructor
  · rfl
  · decide

/-- Claim C1, amended: when a 3-grapheme conjunct key is followed by a
dependent vowel sign, the emitted Latin segment is the conjunct mapping value
(inherent `a` included) with the matra sound appended after it. -/
theorem C1_conjunct_matra :
    ∀ p ∈ CONJUNCTS, ∀ q ∈ MATRAS, p.1.length = 3 →
      transliterate_word (p.1.push q.1) = pyTitle (p.2 ++ q.2) := by
  decide

/-- Witness for `C1_conjunct_matra` at the conjunct `ക്ക` and matra `ി`. -/
theorem C1_conjunct_matra_witness :
    transliterate_word ((("ക്ക" : String)).push 'ി') = pyTitle ("kka" ++ "i") :=
  C1_conjunct_matra ("ക്ക", "kka") (by decide) ('ി', "i") (by decide) (by decide)

/-- Claim C2: the 4-grapheme conjunct key `ന്ദ്ര` is present in the table with
value `ndra`, but the scanner only ever forms 3-codepoint
consonant+virama+consonant keys, so the table entry is unreachable: the word
`ന്ദ്ര` is transliterated `Ndar` (via the prefix conjunct `ന്ദ` plus a bare
`ര`), not `Ndra`. -/
theorem C2_long_conjunct_dead :
    transliterate_word "ന്ദ്ര" = "Ndar" ∧
      lookupStr CONJUNCTS "ന്ദ്ര" = some "ndra" ∧
      pyTitle "ndra" = "Ndra" ∧ ("Ndar" : String) ≠ "Ndra" := by
  refine ⟨rfl, rfl, rfl, ?_⟩
  decide

/-- Claim C3: the KnownNames key `എല്‍സ` (which contains a word-internal ZWJ)
can never match, because input joiners are stripped before the dictionary
comparison while the key retains its ZWJ and the `rstrip` normalisation only
removes trailing marks; the word falls through to the algorithmic cascade and
yields `Els`, not the mapped `Elsa`. -/
theorem C3_internal_zwj_key_dead :
    transliterate_to_english "എല്‍സ" = "Els" ∧
      lookupStr KNOWN_NAMES "എല്‍സ" = some "Elsa" ∧ ("Els" : String) ≠ "Elsa" := by
  refine ⟨rfl, rfl, ?_⟩
  decide

/-- Claim C4: an age/gender segment reading `00` extracts the value 0, which
is below 18 but survives as age 0 instead of being nulled, because the range
check `if age_val and (age_val < 18 or age_val > 120)` treats the falsy value
0 as "no age". -/
theorem C4_zero_age_survives :
    ageFromPart "00" = .ok (some 0) ∧ (0 : Nat) < 18 := by
  constructor
  · rfl
  · decide

/-- Claim C8, counterexample: a pure-ASCII input with leading whitespace is
not returned unchanged — the input is stripped first. -/
theorem C8_counterexample :
    transliterate_to_english " A" = "A" ∧ (" A" : String) ≠ "A" := by
  constructor
  · rfl
  · decide

/-- Claim C8, amended: on the restricted alphabet (ASCII letters, space,
hyphen, slash, period) the fast path returns the stripped input — so an input
without leading or trailing whitespace is returned unchanged — and
transliteration is idempotent on every such input. -/
theorem C8_ascii_fast_path (s : String) (hres : ∀ c ∈ s.data, asciiNameChar c = true) :
    transliterate_to_english s = pyStrip s ∧
      transliterate_to_english (transliterate_to_english s) = transliterate_to_english s := by
  have main : ∀ t : String, (∀ c ∈ t.data, asciiNameChar c = true) →
      transliterate_to_english t = pyStrip t := by
    intro t ht
    unfold transliterate_to_english
    by_cases h1 : t = ""
    · subst h1; simp; rfl
    · by_cases h2 : pyStrip t = ""
      · simp [h1, h2]
      · have hjf : joinerFree (pyStrip t) = pyStrip t := by
          apply strExt
          show (pyStrip t).data.filter _ = (pyStrip t).data
          apply List.filter_eq_self.mpr
          intro c hc
          exact asciiNameChar_not_joiner (ht c (mem_pyStrip hc))
        have hasc : asciiOnly (pyStrip t) = true := by
          apply List.all_eq_true.mpr
          intro c hc
          exact asciiNameChar_ascii (ht c (mem_pyStrip hc))
        simp [h1, h2, hjf, hasc]
  refine ⟨main s hres, ?_⟩
  rw [main s hres, main (pyStrip s) (fun c hc => hres c (mem_pyStrip hc))]
  exact pyStrip_idem s

/-- Witness for `C8_ascii_fast_path` at the input `"a b-c "`. -/
theorem C8_ascii_fast_path_witness :
    transliterate_to_english "a b-c " = pyStrip "a b-c " ∧
      transliterate_to_english (transliterate_to_english "a b-c ") =
        transliterate_to_english "a b-c " :=
  C8_ascii_fast_path "a b-c " (by decide)

/-! ### Whitespace propagation through the transliterator (for claim C10) -/

theorem noWsStr_iff {s : String} :
    noWsStr s = true ↔ ∀ c ∈ s.data, isPySpace c = false := by
  simp [noWsStr, List.all_eq_true]

theorem upChar_not_ws {c : Char} (h : isPySpace c = false) : isPySpace (upChar c) = false := by
  unfold upChar
  split <;> first | decide | exact h

theorem downChar_not_ws {c : Char} (h : isPySpace c = false) :
    isPySpace (downChar c) = false := by
  unfold downChar
  split <;> first | decide | exact h

theorem pyTitleGo_not_ws {l : List Char} (h : ∀ c ∈ l, isPySpace c = false) :
    ∀ b, ∀ c ∈ pyTitleGo b l, isPySpace c = false := by
  induction l with
  | nil => intro b c hc; simp [pyTitleGo] at hc
  | cons a r ih =>
    intro b c hc
    have ha := h a (List.mem_cons_self a r)
    have hr : ∀ c ∈ r, isPySpace c = false := fun c hc => h c (List.mem_cons_of_mem _ hc)
    unfold pyTitleGo at hc
    by_cases hAl : a.isAlpha
    · simp only [hAl, if_true, List.mem_cons] at hc
      rcases hc with hc | hc
      · subst hc
        cases b with
        | true => simpa using downChar_not_ws ha
        | false => simpa using upChar_not_ws ha
      · exact ih hr true c hc
    · simp only [hAl, if_false, Bool.false_eq_true, List.mem_cons] at hc
      rcases hc with hc | hc
      · subst hc; exact ha
      · exact ih hr false c hc

theorem lookupCh_mem : ∀ {t : List (Char × String)} {c : Char} {v : String},
    lookupCh t c = some v → (c, v) ∈ t := by
  intro t
  induction t with
  | nil => intro c v h; simp [lookupCh] at h
  | cons p r ih =>
    intro c v h
    unfold lookupCh at h
    split at h
    · next heq =>
      obtain rfl : p.2 = v := by injection h
      have : p = (c, p.2) := by rw [← heq]
      rw [this] at *
      exact List.mem_cons_self _ _
    · exact List.mem_cons_of_mem _ (ih h)

theorem lookupStr_mem : ∀ {t : List (String × String)} {k v : String},
    lookupStr t k = some v → (k, v) ∈ t := by
  intro t
  induction t with
  | nil => intro k v h; simp [lookupStr] at h
  | cons p r ih =>
    intro k v h
    unfold lookupStr at h
    split at h
    · next heq =>
      obtain rfl : p.2 = v := by injection h
      have : p = (k, p.2) := by rw [← heq]
      rw [this] at *
      exact List.mem_cons_self _ _
    · exact List.mem_cons_of_mem _ (ih h)

theorem tableVals_noWs :
    (∀ p ∈ CONSONANTS, noWsStr p.2 = true) ∧ (∀ p ∈ VOWELS, noWsStr p.2 = true) ∧
      (∀ p ∈ MATRAS, noWsStr p.2 = true) ∧ (∀ p ∈ SPECIALS, noWsStr p.2 = true) ∧
      (∀ p ∈ CONJUNCTS, noWsStr p.2 = true) := by
  decide

theorem knownVals_ok : ∀ p ∈ KNOWN_NAMES, p.2 ≠ "" ∧ noWsStr p.2 = true := by
  decide

theorem lookupCh_getD_noWs {t : List (Char × String)}
    (ht : ∀ p ∈ t, noWsStr p.2 = true) (c : Char) :
    ∀ ch ∈ ((lookupCh t c).getD "").data, isPySpace ch = false := by
  cases h : lookupCh t c with
  | none => intro ch hch; simp at hch
  | some v =>
    intro ch hch
    exact noWsStr_iff.mp (ht (c, v) (lookupCh_mem h)) ch (by simpa using hch)

theorem strConcat_mem : ∀ {ps : List String} {ch : Char},
    ch ∈ (strConcat ps).data → ∃ p ∈ ps, ch ∈ p.data := by
  intro ps
  induction ps with
  | nil => intro ch h; simp [strConcat] at h
  | cons s r ih =>
    intro ch h
    unfold strConcat at h
    rw [String.data_append] at h
    rcases List.mem_append.mp h with h | h
    · exact ⟨s, List.mem_cons_self _ _, h⟩
    · obtain ⟨p, hp, hc⟩ := ih h
      exact ⟨p, List.mem_cons_of_mem _ hp, hc⟩

theorem specialsVal_getD_noWs (c : Char) :
    ∀ ch ∈ ((specialsVal c).getD "").data, isPySpace ch = false :=
  lookupCh_getD_noWs tableVals_noWs.2.2.2.1 c

theorem vowelVal_getD_noWs (c : Char) :
    ∀ ch ∈ ((vowelVal c).getD "").data, isPySpace ch = false :=
  lookupCh_getD_noWs tableVals_noWs.2.1 c

theorem matraVal_getD_noWs (c : Char) :
    ∀ ch ∈ ((matraVal c).getD "").data, isPySpace ch = false :=
  lookupCh_getD_noWs tableVals_noWs.2.2.1 c

theorem consVal_getD_noWs (c : Char) :
    ∀ ch ∈ ((consVal c).getD "").data, isPySpace ch = false :=
  lookupCh_getD_noWs tableVals_noWs.1 c

theorem conjVal_noWs {s v : String} (h : conjVal s = some v) :
    ∀ ch ∈ v.data, isPySpace ch = false :=
  fun ch hch => noWsStr_iff.mp (tableVals_noWs.2.2.2.2 _ (lookupStr_mem h)) ch hch

theorem matraVal_noWs {c : Char} {v : String} (h : matraVal c = some v) :
    ∀ ch ∈ v.data, isPySpace ch = false :=
  fun ch hch => noWsStr_iff.mp (tableVals_noWs.2.2.1 _ (lookupCh_mem h)) ch hch

theorem append_noWs {s t : String} (hs : ∀ ch ∈ s.data, isPySpace ch = false)
    (ht : ∀ ch ∈ t.data, isPySpace ch = false) :
    ∀ ch ∈ (s ++ t).data, isPySpace ch = false := by
  intro ch hch
  rw [String.data_append] at hch
  rcases List.mem_append.mp hch with hch | hch
  · exact hs ch hch
  · exact ht ch hch

theorem twF_noWs (fuel : Nat) :
    (∀ l, (∀ c ∈ l, isPySpace c = false) →
      ∀ p ∈ twGoF fuel l, ∀ ch ∈ p.data, isPySpace ch = false) ∧
    (∀ c l, (∀ x ∈ l, isPySpace x = false) →
      ∀ p ∈ twConsF fuel c l, ∀ ch ∈ p.data, isPySpace ch = false) ∧
    (∀ cv l, (∀ ch ∈ cv.data, isPySpace ch = false) → (∀ x ∈ l, isPySpace x = false) →
      ∀ p ∈ twConjF fuel cv l, ∀ ch ∈ p.data, isPySpace ch = false) ∧
    (∀ c l, (∀ x ∈ l, isPySpace x = false) →
      ∀ p ∈ twAfterF fuel c l, ∀ ch ∈ p.data, isPySpace ch = false) := by
  induction fuel with
  | zero =>
    refine ⟨?_, ?_, ?_, ?_⟩ <;> intro a b c d e <;> simp [twGoF, twConsF, twConjF, twAfterF] at *
  | succ fuel ih =>
    obtain ⟨ihGo, ihCons, ihConj, ihAfter⟩ := ih
    refine ⟨?_, ?_, ?_, ?_⟩
    · intro l hl p hp ch hch
      cases l with
      | nil => simp [twGoF] at hp
      | cons c rest =>
        have hc := hl c (List.mem_cons_self c rest)
        have hrest : ∀ x ∈ rest, isPySpace x = false :=
          fun x hx => hl x (List.mem_cons_of_mem _ hx)
        simp only [twGoF] at hp
        split at hp
        · rcases List.mem_append.mp hp with hp | hp
          · by_cases hA : c.toNat < 128
            · simp only [hA, if_true, List.mem_singleton] at hp
              subst hp
              simp only [List.mem_singleton] at hch
              subst hch
              exact hc
            · simp [hA] at hp
          · exact ihGo rest hrest p hp ch hch
        · split at hp
          · rcases List.mem_cons.mp hp with rfl | hp
            · exact specialsVal_getD_noWs c ch hch
            · exact ihGo rest hrest p hp ch hch
          · split at hp
            · rcases List.mem_cons.mp hp with rfl | hp
              · exact vowelVal_getD_noWs c ch hch
              · exact ihGo rest hrest p hp ch hch
            · split at hp
              · rcases List.mem_cons.mp hp with rfl | hp
                · exact matraVal_getD_noWs c ch hch
                · exact ihGo rest hrest p hp ch hch
              · split at hp
                · exact ihCons c rest hrest p hp ch hch
                · exact ihGo rest hrest p hp ch hch
    · intro c l hl p hp ch hch
      match l with
      | [] =>
        simp only [twConsF] at hp
        exact ihAfter c [] hl p hp ch hch
      | [c1] =>
        simp only [twConsF] at hp
        exact ihAfter c [c1] hl p hp ch hch
      | c1 :: c2 :: rest2 =>
        have hrest : ∀ x ∈ c2 :: rest2, isPySpace x = false :=
          fun x hx => hl x (List.mem_cons_of_mem _ hx)
        have hrest2 : ∀ x ∈ rest2, isPySpace x = false :=
          fun x hx => hrest x (List.mem_cons_of_mem _ hx)
        simp only [twConsF] at hp
        split at hp
        · split at hp
          · next cv hconj =>
            exact ihConj cv rest2 (conjVal_noWs hconj) hrest2 p hp ch hch
          · rcases List.mem_cons.mp hp with rfl | hp
            · exact consVal_getD_noWs c ch hch
            · exact ihGo (c2 :: rest2) hrest p hp ch hch
        · exact ihAfter c (c1 :: c2 :: rest2) hl p hp ch hch
    · intro cv l hcv hl p hp ch hch
      match l with
      | [] =>
        simp only [twConjF, List.mem_singleton] at hp
        subst hp
        exact hcv ch hch
      | m :: rest3 =>
        have hrest3 : ∀ x ∈ rest3, isPySpace x = false :=
          fun x hx => hl x (List.mem_cons_of_mem _ hx)
        simp only [twConjF] at hp
        split at hp
        · next mv hm =>
          rcases List.mem_cons.mp hp with rfl | hp
          · exact append_noWs hcv (matraVal_noWs hm) ch hch
          · exact ihGo rest3 hrest3 p hp ch hch
        · rcases List.mem_cons.mp hp with rfl | hp
          · exact hcv ch hch
          · rcases List.mem_append.mp hp with hp | hp
            · by_cases hmv : m = '്'
              · simp [hmv] at hp
              · simp only [hmv, if_false, List.mem_singleton] at hp
                subst hp
                simp only [List.mem_singleton] at hch
                subst hch
                decide
            · exact ihGo (m :: rest3) hl p hp ch hch
    · intro c l hl p hp ch hch
      match l with
      | [] =>
        simp only [twAfterF, List.mem_singleton] at hp
        subst hp
        exact consVal_getD_noWs c ch hch
      | m :: r1 =>
        have hr1 : ∀ x ∈ r1, isPySpace x = false :=
          fun x hx => hl x (List.mem_cons_of_mem _ hx)
        simp only [twAfterF] at hp
        split at hp
        · next mv hm =>
          rcases List.mem_cons.mp hp with rfl | hp
          · exact append_noWs (consVal_getD_noWs c) (matraVal_noWs hm) ch hch
          · exact ihGo r1 hr1 p hp ch hch
        · rcases List.mem_cons.mp hp with rfl | hp
          · exact consVal_getD_noWs c ch hch
          · rcases List.mem_append.mp hp with hp | hp
            · by_cases hmv : m = '്'
              · simp [hmv] at hp
              · simp only [hmv, if_false, List.mem_singleton] at hp
                subst hp
                simp only [List.mem_singleton] at hch
                subst hch
                decide
            · exact ihGo (m :: r1) hl p hp ch hch

theorem twGo_noWs {l : List Char} (h : ∀ c ∈ l, isPySpace c = false) :
    ∀ p ∈ twGo l, ∀ ch ∈ p.data, isPySpace ch = false :=
  (twF_noWs (4 * (l.length + 1))).1 l h

theorem strConcat_ne_data {ps : List String} (h : strConcat ps ≠ "") :
    (strConcat ps).data ≠ [] := by
  intro hd
  exact h (strExt hd)

theorem pyTitle_ne {t : String} (h : t ≠ "") : pyTitle t ≠ "" := by
  intro he
  have hd := congrArg String.data he
  unfold pyTitle at hd
  simp only [] at hd
  cases ht : t.data with
  | nil => exact h (strExt ht)
  | cons c r =>
    rw [ht] at hd
    unfold pyTitleGo at hd
    by_cases hAl : c.isAlpha <;> simp [hAl] at hd

theorem transliterate_word_noWs {w : String} (hw : ∀ c ∈ w.data, isPySpace c = false)
    (hne : w ≠ "") :
    transliterate_word w ≠ "" ∧ ∀ c ∈ (transliterate_word w).data, isPySpace c = false := by
  unfold transliterate_word
  split
  · exact ⟨hne, hw⟩
  · next hne2 =>
    have hcc : ∀ c ∈ (strConcat (twGo w.data)).data, isPySpace c = false := by
      intro c hc
      obtain ⟨p, hp, hcp⟩ := strConcat_mem hc
      exact twGo_noWs hw p hp c hcp
    refine ⟨pyTitle_ne hne2, ?_⟩
    intro c hc
    exact pyTitleGo_not_ws hcc false c hc

theorem knownLookup_val : ∀ {t : List (String × String)} {w v : String},
    knownLookup t w = some v → ∃ p ∈ t, p.2 = v := by
  intro t
  induction t with
  | nil => intro w v h; simp [knownLookup] at h
  | cons p r ih =>
    intro w v h
    unfold knownLookup at h
    split at h
    · exact ⟨p, List.mem_cons_self _ _, by injection h⟩
    · obtain ⟨q, hq, hv⟩ := ih h
      exact ⟨q, List.mem_cons_of_mem _ hq, hv⟩

theorem wordResult_ok {w r : String} (hw : ∀ c ∈ w.data, isPySpace c = false)
    (h : wordResult w = some r) :
    r ≠ "" ∧ ∀ c ∈ r.data, isPySpace c = false := by
  unfold wordResult at h
  rw [pyStrip_of_noWs hw] at h
  split at h
  · exact absurd h (by simp)
  · next hne =>
    split at h
    · next v hk =>
      obtain rfl : v = r := by injection h
      obtain ⟨p, hp, hv⟩ := knownLookup_val hk
      obtain ⟨-, hnw⟩ := knownVals_ok p hp
      rw [hv] at hnw
      exact ⟨by rw [← hv]; exact (knownVals_ok p hp).1, noWsStr_iff.mp hnw⟩
    · obtain rfl : transliterate_word w = r := by injection h
      exact transliterate_word_noWs hw hne

theorem splitWsL_ok : ∀ (l curr : List Char), (∀ c ∈ curr, isPySpace c = false) →
    ∀ w ∈ splitWsL curr l, w ≠ "" ∧ ∀ c ∈ w.data, isPySpace c = false := by
  intro l
  induction l with
  | nil =>
    intro curr hcurr w hw
    unfold splitWsL at hw
    split at hw
    · simp at hw
    · next hc =>
      simp only [List.mem_singleton] at hw
      subst hw
      constructor
      · intro he
        have := congrArg String.data he
        simp only [] at this
        rw [List.reverse_eq_nil_iff] at this
        rw [this] at hc
        simp at hc
      · intro c hcm
        simp only [] at hcm
        rw [List.mem_reverse] at hcm
        exact hcurr c hcm
  | cons a r ih =>
    intro curr hcurr w hw
    unfold splitWsL at hw
    split at hw
    · next ha =>
      rcases List.mem_append.mp hw with hw | hw
      · split at hw
        · simp at hw
        · next hc =>
          simp only [List.mem_singleton] at hw
          subst hw
          constructor
          · intro he
            have := congrArg String.data he
            simp only [] at this
            rw [List.reverse_eq_nil_iff] at this
            rw [this] at hc
            simp at hc
          · intro c hcm
            simp only [] at hcm
            rw [List.mem_reverse] at hcm
            exact hcurr c hcm
      · exact ih [] (by simp) w hw
    · next ha =>
      refine ih (a :: curr) ?_ w hw
      intro c hcm
      rcases List.mem_cons.mp hcm with rfl | hcm
      · simpa using ha
      · exact hcurr c hcm

theorem noEdgeWs_of_noWs {s : String} (h : ∀ c ∈ s.data, isPySpace c = false) :
    noEdgeWs s = true := by
  unfold noEdgeWs
  have h1 : noLeadB s.data = true := by
    cases hd : s.data with
    | nil => rfl
    | cons c r => simp [noLeadB, h c (by rw [hd]; exact List.mem_cons_self c r)]
  have h2 : noLeadB s.data.reverse = true := by
    cases hd : s.data.reverse with
    | nil => rfl
    | cons c r =>
      have : c ∈ s.data := by rw [← List.mem_reverse, hd]; exact List.mem_cons_self c r
      simp [noLeadB, h c this]
  rw [h1, h2]
  rfl

theorem joinWords_ne : ∀ ws : List String, ws ≠ [] → (∀ w ∈ ws, w ≠ "") →
    joinWords ws ≠ "" := by
  intro ws
  match ws with
  | [] => intro h; exact absurd rfl h
  | [w] => intro _ h; exact h w (List.mem_singleton.mpr rfl)
  | w :: x :: r =>
    intro _ _ he
    have hd := congrArg String.data he
    simp only [joinWords, String.data_append] at hd
    rcases List.append_eq_nil.mp hd with ⟨hd1, -⟩
    rcases List.append_eq_nil.mp hd1 with ⟨-, hd2⟩
    simp at hd2

theorem noLeadB_append_left {l1 l2 : List Char} (h : l1 ≠ []) :
    noLeadB (l1 ++ l2) = noLeadB l1 := by
  cases l1 with
  | nil => exact absurd rfl h
  | cons c r => rfl

theorem joinWords_edge : ∀ ws : List String,
    (∀ w ∈ ws, w ≠ "" ∧ ∀ c ∈ w.data, isPySpace c = false) →
    noEdgeWs (joinWords ws) = true := by
  intro ws
  induction ws with
  | nil => intro _; rfl
  | cons w rest ih =>
    intro h
    cases rest with
    | nil =>
      show noEdgeWs (joinWords [w]) = true
      simp only [joinWords]
      exact noEdgeWs_of_noWs (h w (List.mem_cons_self _ _)).2
    | cons x r =>
      have hw := h w (List.mem_cons_self _ _)
      have hrest : ∀ u ∈ x :: r, u ≠ "" ∧ ∀ c ∈ u.data, isPySpace c = false :=
        fun u hu => h u (List.mem_cons_of_mem _ hu)
      have hJ := ih hrest
      have hJne : joinWords (x :: r) ≠ "" :=
        joinWords_ne _ (by simp) (fun u hu => (hrest u hu).1)
      have hJd : (joinWords (x :: r)).data ≠ [] := fun hd => hJne (strExt hd)
      have hwd : w.data ≠ [] := fun hd => hw.1 (strExt hd)
      show noEdgeWs (joinWords (w :: x :: r)) = true
      have hjw : joinWords (w :: x :: r) = w ++ " " ++ joinWords (x :: r) := rfl
      unfold noEdgeWs
      rw [hjw, String.data_append, String.data_append]
      have hLead : noLeadB ((w.data ++ " ".data) ++ (joinWords (x :: r)).data) = true := by
        rw [noLeadB_append_left (by simp [hwd]), noLeadB_append_left hwd]
        cases hd : w.data with
        | nil => exact absurd hd hwd
        | cons c cr =>
          have hcw := hw.2 c (by rw [hd]; exact List.mem_cons_self _ _)
          simp [noLeadB, hcw]
      have hTrail :
          noLeadB ((w.data ++ " ".data) ++ (joinWords (x :: r)).data).reverse = true := by
        rw [List.reverse_append]
        rw [noLeadB_append_left (by simpa using hJd)]
        unfold noEdgeWs at hJ
        rw [Bool.and_eq_true] at hJ
        exact hJ.2
      rw [hLead, hTrail]
      rfl

/-- Claim C10, counterexample: joiner characters are removed only after the
initial strip, so a ZWJ protecting a leading space survives the strip and the
ASCII fast path then returns a string with leading whitespace. -/
theorem C10_counterexample :
    transliterate_to_english "‍ a" = " a" ∧ noEdgeWs " a" = false := by
  exact ⟨rfl, rfl⟩

/-- Claim C10, amended: `transliterate(s)` always equals
`transliterate(s.strip())`; and for inputs containing no ZWJ/ZWNJ joiner
characters the returned string has no leading or trailing whitespace. -/
theorem C10_strip_invariance (s : String) :
    transliterate_to_english s = transliterate_to_english (pyStrip s) ∧
      ((∀ c ∈ s.data, ¬ c = '‍' ∧ ¬ c = '‌') →
        noEdgeWs (transliterate_to_english s) = true) := by
  constructor
  · unfold transliterate_to_english
    rw [pyStrip_idem]
    by_cases h1 : s = ""
    · subst h1
      simp [show pyStrip "" = "" from rfl]
    · by_cases h2 : pyStrip s = "" <;> simp [h1, h2]
  · intro hjf
    have hfix : joinerFree (pyStrip s) = pyStrip s := by
      apply strExt
      show (pyStrip s).data.filter _ = (pyStrip s).data
      apply List.filter_eq_self.mpr
      intro c hc
      obtain ⟨hz1, hz2⟩ := hjf c (mem_pyStrip hc)
      simp [hz1, hz2]
    unfold transliterate_to_english
    by_cases h1 : s = ""
    · subst h1
      decide
    · by_cases h2 : pyStrip s = ""
      · simp only [h1, h2, Bool.or_eq_true, decide_eq_true_eq, or_true, if_true]
        rfl
      · rw [hfix]
        by_cases hasc : asciiOnly (pyStrip s) = true
        · simp only [h1, h2, hasc, if_true, if_false, Bool.or_self]
          simp only [Bool.or_eq_true, decide_eq_true_eq, h1, h2, or_self, if_false,
            if_true]
          exact noEdgeWs_pyStrip s
        · simp only [Bool.or_eq_true, decide_eq_true_eq, h1, h2, or_self, if_false,
            hasc]
          apply joinWords_edge
          intro w hw
          obtain ⟨u, hu, heq⟩ := List.mem_filterMap.mp hw
          obtain ⟨-, hunw⟩ := splitWsL_ok (pyStrip s).data [] (by simp) u hu
          exact wordResult_ok hunw heq

/-- Witness for `C10_strip_invariance` at the input `"അലി "`. -/
theorem C10_strip_invariance_witness :
    transliterate_to_english "അലി " = transliterate_to_english (pyStrip "അലി ") ∧
      noEdgeWs (transliterate_to_english "അലി ") = true :=
  ⟨(C10_strip_invariance "അലി ").1, (C10_strip_invariance "അലി ").2 (by decide)⟩

/-! ### Record-assembly lemmas (claims C5, C6, C7) -/

theorem pyIntOpt_isSome {s : String} (h : digitStr s) : ∃ n, pyIntOpt s = some n := by
  obtain ⟨h1, h2⟩ := h
  unfold pyIntOpt
  split
  · next hEmp =>
    exact absurd (strExt (List.isEmpty_iff.mp hEmp)) h1
  · split
    · exact ⟨_, rfl⟩
    · next hAll =>
      exact absurd (List.all_eq_true.mpr h2) hAll

theorem pyIntE_ok {s : String} (h : digitStr s) :
    ∃ n, pyIntE s = .ok n ∧ pyIntOpt s = some n := by
  obtain ⟨n, hn⟩ := pyIntOpt_isSome h
  refine ⟨n, ?_, hn⟩
  unfold pyIntE
  rw [hn]

theorem buildVoter_eq {c : Cols} (h : ∀ s ∈ c.sns, digitStr s) (k : Nat) :
    buildVoter c k = .ok (voterAt c k) := by
  unfold buildVoter voterAt
  cases hs : c.sns.get? k with
  | none => simp
  | some str =>
    obtain ⟨n, hE, hO⟩ := pyIntE_ok (h str (List.get?_mem hs))
    simp [hE, hO, Except.map]

theorem assembleGo_eq {c : Cols} (hsn : ∀ s ∈ c.sns, digitStr s)
    (hid : ∀ id ∈ c.ids, pyUpper id ≠ "") :
    ∀ idxs : List Nat, (∀ i ∈ idxs, i < c.ids.length) →
      assembleGo c idxs = .ok (idxs.map (voterAt c)) := by
  intro idxs
  induction idxs with
  | nil => intro _; rfl
  | cons i rest ih =>
    intro hall
    have hi := hall i (List.mem_cons_self _ _)
    obtain ⟨idv, hidv⟩ : ∃ v, c.ids.get? i = some v := by
      cases hg : c.ids.get? i with
      | none =>
        rw [List.get?_eq_none] at hg
        omega
      | some v => exact ⟨v, rfl⟩
    have htr : optStrTruthy (voterAt c i).voter_id = true := by
      show optStrTruthy ((c.ids.get? i).map pyUpper) = true
      rw [hidv]
      simpa [optStrTruthy] using hid idv (List.get?_mem hidv)
    simp only [assembleGo, buildVoter_eq hsn i,
      ih (fun j hj => hall j (List.mem_cons_of_mem _ hj)), htr, if_true, List.map_cons]

/-- Claim C5: record assembly is positionally aligned.  When all serial
strings are digit groups and all identifiers are non-empty after uppercasing
(both guaranteed by the extraction regexes), the assembly loop succeeds, emits
exactly one record per identifier, and the `k`-th record is built from the
`k`-th element of every field column — null where a column is shorter — never
a shifted element. -/
theorem C5_alignment (c : Cols) (hsn : ∀ s ∈ c.sns, digitStr s)
    (hid : ∀ id ∈ c.ids, pyUpper id ≠ "") (k : Nat) (hk : k < c.ids.length) :
    ∃ vs, assembleVoters c = .ok vs ∧ vs.length = c.ids.length ∧
      vs.get? k = some (voterAt c k) := by
  refine ⟨(List.range c.ids.length).map (voterAt c), ?_, by simp, ?_⟩
  · exact assembleGo_eq hsn hid _ (fun i hi => List.mem_range.mp hi)
  · rw [List.get?_map, List.get?_range hk]
    rfl

/-- Witness for `C5_alignment`: the synthetic block of the claim — identifiers
`[A1, A2, A3]`, name column `[N1, N2]`, house column `[H1]` — produces exactly
the records `(A1,N1,H1)`, `(A2,N2,null)`, `(A3,null,null)`. -/
theorem C5_alignment_witness :
    (∃ vs,
      assembleVoters
        { ids := ["ABC123456", "ABC123457", "ABC123458"], sns := [],
          names := ["N1", "N2"], rels := [], relts := [], houses := ["H1"],
          ages := [], genders := [] } = .ok vs ∧
      vs.length = 3 ∧
      vs.get? 1 = some (voterAt
        { ids := ["ABC123456", "ABC123457", "ABC123458"], sns := [],
          names := ["N1", "N2"], rels := [], relts := [], houses := ["H1"],
          ages := [], genders := [] } 1)) ∧
    voterAt
        { ids := ["ABC123456", "ABC123457", "ABC123458"], sns := [],
          names := ["N1", "N2"], rels := [], relts := [], houses := ["H1"],
          ages := [], genders := [] } 0 =
      ⟨none, some "ABC123456", some "N1", none, none, none, defaultRel, some "H1",
        none, none⟩ ∧
    voterAt
        { ids := ["ABC123456", "ABC123457", "ABC123458"], sns := [],
          names := ["N1", "N2"], rels := [], relts := [], houses := ["H1"],
          ages := [], genders := [] } 1 =
      ⟨none, some "ABC123457", some "N2", none, none, none, defaultRel, none,
        none, none⟩ ∧
    voterAt
        { ids := ["ABC123456", "ABC123457", "ABC123458"], sns := [],
          names := ["N1", "N2"], rels := [], relts := [], houses := ["H1"],
          ages := [], genders := [] } 2 =
      ⟨none, some "ABC123458", none, none, none, none, defaultRel, none,
        none, none⟩ := by
  refine ⟨C5_alignment _ (by simp) (by decide) 1 (by decide), ?_, ?_, ?_⟩ <;> decide

theorem assembleGo_bound {c : Cols} : ∀ idxs vs, assembleGo c idxs = .ok vs →
    vs.length ≤ idxs.length ∧ ∀ v ∈ vs, v.voter_id ≠ none := by
  intro idxs
  induction idxs with
  | nil =>
    intro vs h
    obtain rfl : ([] : List Voter) = vs := by
      unfold assembleGo at h
      injection h
    simp
  | cons i rest ih =>
    intro vs h
    unfold assembleGo at h
    cases hb : buildVoter c i with
    | error e => rw [hb] at h; simp at h
    | ok v =>
      rw [hb] at h
      cases hr : assembleGo c rest with
      | error e => rw [hr] at h; simp at h
      | ok vs' =>
        rw [hr] at h
        dsimp only at h
        obtain ⟨hlen, hmem⟩ := ih vs' hr
        by_cases ht : optStrTruthy v.voter_id = true
        · rw [if_pos ht] at h
          obtain rfl : v :: vs' = vs := by injection h
          refine ⟨by simpa using Nat.succ_le_succ hlen, ?_⟩
          intro u hu
          rcases List.mem_cons.mp hu with rfl | hu
          · cases hv : u.voter_id with
            | none => rw [hv] at ht; simp [optStrTruthy] at ht
            | some s => simp
          · exact hmem u hu
        · rw [if_neg ht] at h
          obtain rfl : vs' = vs := by injection h
          exact ⟨Nat.le_succ_of_le hlen, hmem⟩

/-- Claim C6: for every block, at most one record per identifier found, and
every emitted record has a non-null `voter_id`. -/
theorem C6_record_invariant : ∀ (bt : String) (ids sns : List String) (vs : List Voter),
    parse_voter_block bt ids sns = .ok vs →
      vs.length ≤ ids.length ∧ ∀ v ∈ vs, v.voter_id ≠ none := by
  intro bt ids sns vs h
  unfold parse_voter_block at h
  cases hag : agesGendersOf (agePartsOf bt) with
  | error e => rw [hag] at h; simp at h
  | ok p =>
    rw [hag] at h
    obtain ⟨ages, genders⟩ := p
    unfold assembleVoters at h
    obtain ⟨hlen, hmem⟩ := assembleGo_bound _ _ h
    refine ⟨?_, hmem⟩
    simpa using hlen

/-- Witness for `C6_record_invariant` at a one-identifier block. -/
theorem C6_record_invariant_witness :
    ([(⟨none, some "AB123456", none, none, none, none, defaultRel, none, none,
        none⟩ : Voter)].length ≤ (["AB123456"] : List String).length) ∧
      (⟨none, some "AB123456", none, none, none, none, defaultRel, none, none,
        none⟩ : Voter).voter_id ≠ none := by
  have h := C6_record_invariant "" ["AB123456"] []
    [⟨none, some "AB123456", none, none, none, none, defaultRel, none, none, none⟩] rfl
  exact ⟨h.1, h.2 _ (List.mem_singleton.mpr rfl)⟩

theorem agesGendersOf_genders : ∀ (parts : List String) (ages : List (Option Nat))
    (genders : List String), agesGendersOf parts = .ok (ages, genders) →
      genders = parts.map genderOf := by
  intro parts
  induction parts with
  | nil =>
    intro ages genders h
    unfold agesGendersOf at h
    obtain ⟨-, h2⟩ := Prod.mk.injEq .. ▸ (by injection h : (([], []) : List (Option Nat) × List String) = (ages, genders))
    simp [← h2]
  | cons p rest ih =>
    intro ages genders h
    unfold agesGendersOf at h
    cases ha : ageFromPart p with
    | error e => rw [ha] at h; simp at h
    | ok a =>
      rw [ha] at h
      cases hr : agesGendersOf rest with
      | error e => rw [hr] at h; simp at h
      | ok q =>
        rw [hr] at h
        obtain ⟨as1, gs1⟩ := q
        dsimp only at h
        have hq : (a :: as1, genderOf p :: gs1) = ((ages, genders) : List (Option Nat) × List String) := by
          injection h
        obtain ⟨-, h2⟩ := Prod.mk.injEq .. ▸ hq
        rw [← h2, ih as1 gs1 hr]
        rfl

theorem buildVoter_gender {c : Cols} {i : Nat} {v : Voter}
    (h : buildVoter c i = .ok v) : v.gender = c.genders.get? i := by
  unfold buildVoter at h
  cases hm : (match c.sns.get? i with
      | some s => Except.map some (pyIntE s)
      | none => Except.ok (none : Option Nat)) with
  | error e => rw [hm] at h; simp at h
  | ok serial =>
    rw [hm] at h
    dsimp only at h
    obtain rfl : _ = v := by injection h
    rfl

theorem assembleGo_gender {c : Cols} : ∀ idxs vs, assembleGo c idxs = .ok vs →
    ∀ v ∈ vs, v.gender = none ∨ ∃ g ∈ c.genders, v.gender = some g := by
  intro idxs
  induction idxs with
  | nil =>
    intro vs h
    obtain rfl : ([] : List Voter) = vs := by
      unfold assembleGo at h
      injection h
    simp
  | cons i rest ih =>
    intro vs h
    unfold assembleGo at h
    cases hb : buildVoter c i with
    | error e => rw [hb] at h; simp at h
    | ok v =>
      rw [hb] at h
      cases hr : assembleGo c rest with
      | error e => rw [hr] at h; simp at h
      | ok vs' =>
        rw [hr] at h
        dsimp only at h
        have hmem := ih vs' hr
        have hv : v.gender = none ∨ ∃ g ∈ c.genders, v.gender = some g := by
          rw [buildVoter_gender hb]
          cases hg : c.genders.get? i with
          | none => exact Or.inl rfl
          | some g => exact Or.inr ⟨g, List.get?_mem hg, rfl⟩
        by_cases ht : optStrTruthy v.voter_id = true
        · rw [if_pos ht] at h
          obtain rfl : v :: vs' = vs := by injection h
          intro u hu
          rcases List.mem_cons.mp hu with rfl | hu
          · exact hv
          · exact hmem u hu
        · rw [if_neg ht] at h
          obtain rfl : vs' = vs := by injection h
          exact hmem

/-- Claim C7, counterexample: a block with an identifier but no age/gender
line at all yields a record whose gender field is null, not "Male". -/
theorem C7_counterexample :
    parse_voter_block "" ["CD654321"] [] =
      .ok [⟨none, some "CD654321", none, none, none, none, defaultRel, none, none,
        none⟩] ∧
    (⟨none, some "CD654321", none, none, none, none, defaultRel, none, none,
        none⟩ : Voter).gender = none ∧
    (none : Option String) ≠ some "Male / പുരുഷൻ" ∧
    (none : Option String) ≠ some "Female / സ്ത്രീ" := by
  refine ⟨rfl, rfl, ?_, ?_⟩ <;> decide

theorem buildVoter_voter_id {c : Cols} {i : Nat} {v : Voter}
    (h : buildVoter c i = .ok v) : v.voter_id = (c.ids.get? i).map pyUpper := by
  unfold buildVoter at h
  cases hm : (match c.sns.get? i with
      | some s => Except.map some (pyIntE s)
      | none => Except.ok (none : Option Nat)) with
  | error e => rw [hm] at h; simp at h
  | ok serial =>
    rw [hm] at h
    dsimp only at h
    obtain rfl : _ = v := by injection h
    rfl

theorem assembleGo_members {c : Cols} : ∀ idxs vs, assembleGo c idxs = .ok vs →
    ∀ v ∈ vs, ∃ i ∈ idxs, buildVoter c i = .ok v := by
  intro idxs
  induction idxs with
  | nil =>
    intro vs h
    obtain rfl : ([] : List Voter) = vs := by
      unfold assembleGo at h
      injection h
    simp
  | cons i rest ih =>
    intro vs h
    unfold assembleGo at h
    cases hb : buildVoter c i with
    | error e => rw [hb] at h; simp at h
    | ok v0 =>
      rw [hb] at h
      cases hr : assembleGo c rest with
      | error e => rw [hr] at h; simp at h
      | ok vs' =>
        rw [hr] at h
        dsimp only at h
        have hmem := ih vs' hr
        by_cases ht : optStrTruthy v0.voter_id = true
        · rw [if_pos ht] at h
          obtain rfl : v0 :: vs' = vs := by injection h
          intro v hv
          rcases List.mem_cons.mp hv with rfl | hv
          · exact ⟨i, List.mem_cons_self _ _, hb⟩
          · obtain ⟨j, hj, hbj⟩ := hmem v hv
            exact ⟨j, List.mem_cons_of_mem _ hj, hbj⟩
        · rw [if_neg ht] at h
          obtain rfl : vs' = vs := by injection h
          intro v hv
          obtain ⟨j, hj, hbj⟩ := hmem v hv
          exact ⟨j, List.mem_cons_of_mem _ hj, hbj⟩

/-- Claim C7, amended: every emitted record is built from a column index `k`
— its `voter_id` is the `k`-th identifier uppercased — and its gender field
is determined by the age/gender segment at that same index `k`: "Female / …"
when a feminine marker substring is present in that segment, "Male / …"
otherwise, and null exactly when no age/gender segment exists at index `k`
(in particular whenever the block has no age/gender line at all). -/
theorem C7_gender (bt : String) (ids sns : List String) (vs : List Voter)
    (h : parse_voter_block bt ids sns = .ok vs) :
    ∀ v ∈ vs, ∃ k, k < ids.length ∧
      v.voter_id = (ids.get? k).map pyUpper ∧
      v.gender = ((agePartsOf bt).get? k).map
        (fun part => if femaleMark part then "Female / സ്ത്രീ" else "Male / പുരുഷൻ") := by
  unfold parse_voter_block at h
  cases hag : agesGendersOf (agePartsOf bt) with
  | error e => rw [hag] at h; simp at h
  | ok p =>
    rw [hag] at h
    obtain ⟨ages, genders⟩ := p
    dsimp only at h
    unfold assembleVoters at h
    have hg := agesGendersOf_genders _ _ _ hag
    intro v hv
    obtain ⟨k, hkmem, hb⟩ := assembleGo_members _ _ h v hv
    refine ⟨k, List.mem_range.mp hkmem, buildVoter_voter_id hb, ?_⟩
    rw [buildVoter_gender hb]
    show genders.get? k = _
    rw [hg, List.get?_map]
    cases (agePartsOf bt).get? k <;> rfl

/-- Witness for `C7_gender` at a block whose age/gender line is `പ്രായം : 25`:
the single emitted record sits at column index 0, its identifier is the 0-th
one, and its gender is computed from the segment at index 0 (no feminine
marker there, hence the "Male / …" value). -/
theorem C7_gender_witness :
    ∃ k, k < (["AB123456"] : List String).length ∧
      (⟨none, some "AB123456", none, none, none, none, defaultRel, none, some 25,
        some "Male / പുരുഷൻ"⟩ : Voter).voter_id =
          ((["AB123456"] : List String).get? k).map pyUpper ∧
      (⟨none, some "AB123456", none, none, none, none, defaultRel, none, some 25,
        some "Male / പുരുഷൻ"⟩ : Voter).gender =
          ((agePartsOf "പ്രായം : 25").get? k).map
            (fun part => if femaleMark part then "Female / സ്ത്രീ" else "Male / പുരുഷൻ") :=
  C7_gender "പ്രായം : 25" ["AB123456"] []
    [⟨none, some "AB123456", none, none, none, none, defaultRel, none, some 25,
      some "Male / പുരുഷൻ"⟩] rfl _ (List.mem_singleton.mpr rfl)

/-! ### Parser totality (claim C9) -/

theorem take_digits : ∀ (l : List Char) (k : Nat), k ≤ runLen Char.isDigit l →
    ∀ c ∈ l.take k, c.isDigit = true := by
  intro l
  induction l with
  | nil => intro k _ c hc; simp at hc
  | cons a r ih =>
    intro k hk c hc
    cases k with
    | zero => simp at hc
    | succ k =>
      have ha : a.isDigit = true := by
        by_contra hna
        have : runLen Char.isDigit (a :: r) = 0 := by
          unfold runLen
          rw [List.takeWhile_cons, if_neg (by simpa using hna)]
          rfl
        omega
      have hrl : runLen Char.isDigit (a :: r) = runLen Char.isDigit r + 1 := by
        unfold runLen
        rw [List.takeWhile_cons, if_pos ha]
        rfl
      rw [List.take_succ_cons] at hc
      rcases List.mem_cons.mp hc with rfl | hc
      · exact ha
      · exact ih k (by omega) c hc

theorem take_digits_ne {l : List Char} {k : Nat} (hk1 : 1 ≤ k)
    (hrl : 1 ≤ runLen Char.isDigit l) : l.take k ≠ [] := by
  cases l with
  | nil => simp [runLen] at hrl
  | cons a r =>
    cases k with
    | zero => omega
    | succ k => simp

theorem serialMatchAt_digits {l : List Char} {g : String} {k : Nat}
    (h : serialMatchAt l = some (g, k)) : digitStr g := by
  unfold serialMatchAt at h
  dsimp only at h
  split at h
  · next hD =>
    simp only [Bool.and_eq_true, decide_eq_true_eq] at hD
    split at h
    · split at h
      · split at h
        · split at h
          · have hpair : ((⟨l.take (runLen Char.isDigit l)⟩ : String),
                runLen Char.isDigit l + runLen isPySpace (l.drop (runLen Char.isDigit l)) +
                  runLen Char.isAlpha ((l.drop (runLen Char.isDigit l)).drop
                    (runLen isPySpace (l.drop (runLen Char.isDigit l)))) + 1) = (g, k) := by
              injection h
            obtain ⟨hg, -⟩ := Prod.mk.injEq .. ▸ hpair
            constructor
            · intro he
              rw [← hg] at he
              have hd := congrArg String.data he
              simp only [] at hd
              exact take_digits_ne hD.1 hD.1 hd
            · intro c hc
              rw [← hg] at hc
              exact take_digits l _ (le_refl _) c hc
          · exact absurd h (by simp)
        · exact absurd h (by simp)
      · exact absurd h (by simp)
    · exact absurd h (by simp)
  · exact absurd h (by simp)

theorem scanSerials_digits : ∀ (fuel : Nat) (b : Bool) (l : List Char) (g : String),
    g ∈ scanSerials fuel b l → digitStr g := by
  intro fuel
  induction fuel with
  | zero => intro b l g h; simp [scanSerials] at h
  | succ fuel ih =>
    intro b l g h
    cases l with
    | nil => simp [scanSerials] at h
    | cons c rest =>
      unfold scanSerials at h
      cases hm : (if b then serialMatchAt (c :: rest) else none) with
      | some p =>
        rw [hm] at h
        obtain ⟨g0, k⟩ := p
        dsimp only at h
        rcases List.mem_cons.mp h with rfl | h
        · cases b with
          | false => simp at hm
          | true =>
            rw [if_pos rfl] at hm
            exact serialMatchAt_digits hm
        · exact ih false _ g h
      | none =>
        rw [hm] at h
        dsimp only at h
        split at h
        · cases hm2 : serialMatchAt rest with
          | some p2 =>
            rw [hm2] at h
            obtain ⟨g2, k2⟩ := p2
            dsimp only at h
            rcases List.mem_cons.mp h with rfl | h
            · exact serialMatchAt_digits hm2
            · exact ih false _ g h
          | none =>
            rw [hm2] at h
            exact ih false _ g h
        · exact ih false _ g h

theorem extractAgeDigits_digits : ∀ {l : List Char} {s : String},
    extractAgeDigits l = some s → digitStr s := by
  intro l
  induction l with
  | nil => intro s h; simp [extractAgeDigits] at h
  | cons c r ih =>
    intro s h
    unfold extractAgeDigits at h
    dsimp only at h
    split at h
    · next hD =>
      obtain rfl : (⟨(c :: r).take (min (runLen Char.isDigit (c :: r)) 3)⟩ : String) = s := by
        injection h
      constructor
      · intro he
        have hd := congrArg String.data he
        simp only [] at hd
        exact take_digits_ne (by omega) (by omega) hd
      · intro ch hch
        exact take_digits _ _ (min_le_left _ _) ch hch
    · exact ih h

theorem ageFromPart_ok (part : String) : ∃ a, ageFromPart part = .ok a := by
  unfold ageFromPart
  cases he : extractAgeDigits part.data with
  | none => exact ⟨none, rfl⟩
  | some ds =>
    obtain ⟨n, hE, -⟩ := pyIntE_ok (extractAgeDigits_digits he)
    dsimp only
    rw [hE]
    exact ⟨_, rfl⟩

theorem agesGendersOf_ok : ∀ parts : List String, ∃ r, agesGendersOf parts = .ok r := by
  intro parts
  induction parts with
  | nil => exact ⟨_, rfl⟩
  | cons p rest ih =>
    obtain ⟨a, ha⟩ := ageFromPart_ok p
    obtain ⟨r, hr⟩ := ih
    obtain ⟨as1, gs1⟩ := r
    refine ⟨(a :: as1, genderOf p :: gs1), ?_⟩
    unfold agesGendersOf
    rw [ha, hr]

theorem assembleGo_ok {c : Cols} (hsn : ∀ s ∈ c.sns, digitStr s) :
    ∀ idxs : List Nat, ∃ vs, assembleGo c idxs = .ok vs := by
  intro idxs
  induction idxs with
  | nil => exact ⟨[], rfl⟩
  | cons i rest ih =>
    obtain ⟨vs, hvs⟩ := ih
    refine ⟨if optStrTruthy (voterAt c i).voter_id then voterAt c i :: vs else vs, ?_⟩
    unfold assembleGo
    rw [buildVoter_eq hsn i, hvs]
    dsimp only
    by_cases ht : optStrTruthy (voterAt c i).voter_id = true <;> simp [ht]

theorem parse_voter_block_ok (bt : String) (ids sns : List String)
    (hsn : ∀ s ∈ sns, digitStr s) : ∃ vs, parse_voter_block bt ids sns = .ok vs := by
  unfold parse_voter_block
  obtain ⟨r, hr⟩ := agesGendersOf_ok (agePartsOf bt)
  obtain ⟨ages, genders⟩ := r
  rw [hr]
  dsimp only
  unfold assembleVoters
  exact assembleGo_ok hsn _

theorem parseLoop_ok : ∀ (n : Nat) (lines : List String) (i : Nat),
    lines.length - i ≤ n → ∃ vs, parseLoop lines i = .ok vs := by
  intro n
  induction n with
  | zero =>
    intro lines i h
    rw [parseLoop, dif_neg (by omega)]
    exact ⟨[], rfl⟩
  | succ n ih =>
    intro lines i h
    by_cases hi : i < lines.length
    · rw [parseLoop, dif_pos hi]
      dsimp only
      by_cases hids : findVoterIds (lines.get ⟨i, hi⟩).data = []
      · rw [if_pos hids]
        exact ih lines (i + 1) (by omega)
      · rw [if_neg hids]
        obtain ⟨vs1, h1⟩ := parse_voter_block_ok
          (joinNlStr (lines.get ⟨i, hi⟩ :: (collectBlock lines (i + 1)).1))
          (findVoterIds (lines.get ⟨i, hi⟩).data)
          (findSerials (lines.get ⟨i, hi⟩).data)
          (fun s hs => scanSerials_digits _ _ _ s hs)
        rw [h1]
        obtain ⟨vs2, h2⟩ := ih lines (collectBlock lines (i + 1)).2
          (by have := collectBlock_le lines (i + 1); omega)
        rw [h2]
        exact ⟨_, rfl⟩
    · rw [parseLoop, dif_neg hi]
      exact ⟨[], rfl⟩

/-- Claim C9: the parser is total.  For every input page text — however
malformed — `parse_ocr_text` returns a (possibly empty) list of records and
never reaches the exception path: every `int()` conversion it performs is on
a digit group produced by the serial-number or age regex. -/
theorem C9_parser_total (text : String) : ∃ vs, parse_ocr_text text = .ok vs := by
  unfold parse_ocr_text
  by_cases h : pageLines text = []
  · rw [if_pos h]
    exact ⟨[], rfl⟩
  · rw [if_neg h]
    exact parseLoop_ok (pageLines text).length _ _ (by omega)

/-! ## Behavioural cross-checks

Concrete evaluations of the embedded functions, each checked against the
behaviour of the corresponding Python code on the same input. -/

theorem evalCheck01 : findVoterIds "1 KL1234567 2 ML7654321 3 XY123456".data = ["KL1234567", "ML7654321", "XY123456"] := by decide
theorem evalCheck02 : findVoterIds "12345 AB123456".data = ["AB123456"] := by decide
theorem evalCheck03 : findVoterIds "ABCD123456 AB12345 AB123456789012".data = ["BCD123456", "AB1234567890"] := by decide
theorem evalCheck04 : findVoterIds "  7 ab1234567890123".data = ["ab1234567890"] := by decide
theorem evalCheck05 : findVoterIds " 23 AB1".data = [] := by decide
theorem evalCheck06 : findSerials "1 KL1234567 2 ML7654321 3 XY123456".data = ["1", "2", "3"] := by decide
theorem evalCheck07 : findSerials "12345 AB123456".data = [] := by decide
theorem evalCheck08 : findSerials " 23 AB1".data = ["23"] := by decide
theorem evalCheck09 : findSerials "x 999 ZZZ999999x".data = ["999"] := by decide
theorem evalCheck10 : searchStart "12345 AB123456".data = true := by decide
theorem evalCheck11 : searchStart "  7 ab1234567890123".data = false := by decide
theorem evalCheck12 : searchBoundary "  7 ab1234567890123".data = true := by decide
theorem evalCheck13 : searchBoundary "12345 AB123456".data = false := by decide
theorem evalCheck14 : searchIdUpper " 23 AB1".data = false := by decide
theorem evalCheck15 : searchIdUpper "12345 AB123456".data = true := by decide
theorem evalCheck16 : reSplit nameSplitAt "പേര് : രാമൻ  പേര : കൃഷ്ണ".data = ["", "രാമൻ  ", "കൃഷ്ണ"] := by decide
theorem evalCheck17 : reSplit nameSplitAt "പേര്‌: അലി".data = ["", "അലി"] := by decide
theorem evalCheck18 : reSplit nameSplitAt "xപേര : a പേര+ b".data = ["x", "a ", "b"] := by decide
theorem evalCheck19 : reSplit relSplitAt "അച്ഛന്റെ പേര് : രാമൻ ഭര്‍ത്താവിന്റെ പേര്: കൃഷ്ണ".data = ["", "രാമൻ ", "കൃഷ്ണ"] := by decide
theorem evalCheck20 : reSplit relSplitAt "അച്ഛന്റെ രാമൻ".data = ["", "രാമൻ"] := by decide
theorem evalCheck21 : reSplit houseSplitAt "വീട്ടു നമ്പര്‍ : 12A വിട്ടു നമ്പര്: 9".data = ["", "12A ", "9"] := by decide
theorem evalCheck22 : reSplit houseSplitAt "വീട്ടു നമ്പ : 3".data = ["വീട്ടു നമ്പ : 3"] := by decide
theorem evalCheck23 : reSplit ageSplitAt "പ്രായം : 25 സ്ത്രീ പ്രായം: 30".data = ["", "25 സ്ത്രീ ", "30"] := by decide
theorem evalCheck24 : pyStrip (subTrailing houseNoise "12A ടോ") = "12A" := by decide
theorem evalCheck25 : pyStrip (subTrailing houseNoise "abc oes  ") = "abc" := by decide
theorem evalCheck26 : pyStrip (subTrailing houseNoise "a ടോ b") = "a ടോ b" := by decide
theorem evalCheck27 : pyStrip (subTrailing houseNoise "ല്ല") = "" := by decide
theorem evalCheck28 : pyStrip (subTrailing houseNoise "hello") = "he" := by decide
theorem evalCheck29 : cleanNameMl "രാമൻ ഫോട്ടോ" = "രാമൻ" := by decide
theorem evalCheck30 : cleanNameMl "രാമൻ | " = "രാമൻ" := by decide
theorem evalCheck31 : isPhotoLine "ഫോട്ടോ ഫോട്ടോ" = true := by decide
theorem evalCheck32 : isPhotoLine "ഫോട്ടോ x" = false := by decide
theorem evalCheck33 : isPhotoLine "ഫോട്ടോ  " = true := by decide
theorem evalCheck34 : extractAgeDigits "x 1 234 5".data = some "234" := by decide
theorem evalCheck35 : extractAgeDigits "no".data = none := by decide
theorem evalCheck36 : extractAgeDigits "9999".data = some "999" := by decide
theorem evalCheck37 : parse_voter_block "1 KL1234567 2 ML7654321\nപേര് : രാമൻ പേര് : കൃഷ്ണൻ\nഅച്ഛന്റെ പേര് : ഗോപി ഭര്‍ത്താവിന്റെ പേര്: ഹരി\nവീട്ടു നമ്പര്‍ : 12A ടോ വിട്ടു നമ്പര്: 9\nപ്രായം : 25 സ്ത്രീ പ്രായം: 00"
    ["KL1234567", "ML7654321"] ["1", "2"] =
    .ok [⟨some 1, some "KL1234567", some "രാമൻ", none, some "ഗോപി", none,
          "Father's Name / അച്ഛന്റെ പേര്", some "12A", some 25, some "Female / സ്ത്രീ"⟩,
         ⟨some 2, some "ML7654321", some "കൃഷ്ണൻ", none, some "ഹരി", none,
          "Husband's Name / ഭർത്താവിന്റെ പേര്", some "9", some 0, some "Male / പുരുഷൻ"⟩] := rfl
theorem evalCheck38 : parse_voter_block "" ["AB123456"] [] =
    .ok [⟨none, some "AB123456", none, none, none, none,
          "Father's Name / അച്ഛന്റെ പേര്", none, none, none⟩] := rfl
theorem evalCheck39 : transliterate_word "ക്കി" = "Kkai" := by decide
theorem evalCheck40 : transliterate_word "ന്ദ്ര" = "Ndar" := by decide
theorem evalCheck41 : transliterate_to_english "അലി " = "Ali" := by decide
theorem evalCheck42 : transliterate_to_english " A" = "A" := by decide
theorem evalCheck43 : transliterate_to_english "‍ a" = " a" := by decide
theorem evalCheck44 : transliterate_to_english "എല്‍സ" = "Els" := by decide
theorem evalCheck45 : transliterate_word "ക്ക" = "Kka" := by decide
theorem evalCheck46 : transliterate_word "ക്ഷൃ" = "Kshari" := by decide
